import Mathlib

set_option linter.unusedVariables false

/- Shallow embedding of the solitaire engine in src/app/card.py,
src/app/stacks.py and src/app/solitaire.py.

A Python card object is identified by its (value, suit) pair: Card.__eq__
compares exactly these, and a game holds at most one object per pair.  The
mutable face_up flag of each card object is modelled as a global map
Card → Bool threaded through the operations; this captures Python's
aliasing of card objects between pile lists and snapshot copies (a shallow
snapshot of a pile shares the card objects, so a flip survives a snapshot
restore).

Piles are Lean lists, bottom-to-top, top = last element, exactly like
the Python lists in Stack.cards (cards[-1] is the top). -/

-- ----- card.py -----

inductive Suit
  | clubs
  | diamonds
  | hearts
  | spades
deriving DecidableEq

inductive Color
  | red
  | black
deriving DecidableEq

structure Card where
  value : Nat
  suit : Suit
deriving DecidableEq

/-- Color of each suit, from the Card.SUITS table in card.py. -/
def Suit.color : Suit → Color
  | .clubs => .black
  | .diamonds => .red
  | .hearts => .red
  | .spades => .black

/-- Card.color property: the color of the card's suit. -/
def Card.color (c : Card) : Color := c.suit.color

/-- Card.flip mutates the face_up flag of one card object; on the global
orientation map this toggles the value at that card. -/
def flipCard (f : Card → Bool) (c : Card) : Card → Bool :=
  fun x => if x = c then !(f x) else f x

/-- Flip every card of a list in order, as in
[c.flip() for c in self.discard_pile]. -/
def flipAll (f : Card → Bool) (l : List Card) : Card → Bool :=
  l.foldl flipCard f

-- ----- errors raised by stacks.py / solitaire.py -----

/-- Errors of the engine.  illegalMove is IllegalMoveError;
insufficientCards is the AssertionError "not enough cards." in
Column.take_cards; emptyStack is the AssertionError "stack is empty." in
Stack.take_card / Stack.top_card; indexError is Python's IndexError
(pop from the empty discard list, or cards[0] of an empty list in
Column.add_cards). -/
inductive SolErr
  | illegalMove
  | insufficientCards
  | emptyStack
  | indexError
deriving DecidableEq

-- ----- stacks.py -----

/-- Stack.take_card: removes and returns the top (last) card; the
AssertionError on an empty stack is the none case. -/
def takeCard (l : List Card) : Option (Card × List Card) :=
  match l.getLast? with
  | none => none
  | some c => some (c, l.dropLast)

/-- AcePile._can_add_card from stacks.py: an ace (value 1) is always
allowed; otherwise the pile must be non-empty and the card must match the
top card's suit with value one above it. -/
def canAddAce (pile : List Card) (c : Card) : Bool :=
  if c.value = 1 then
    true
  else
    match pile.getLast? with
    | none => false
    | some t => c.suit = t.suit && c.value = t.value + 1

/-- AcePile.add_card: append the card if _can_add_card allows it,
otherwise raise IllegalMoveError. -/
def acePileAdd (pile : List Card) (c : Card) : Except SolErr (List Card) :=
  if canAddAce pile c then .ok (pile ++ [c]) else .error .illegalMove

/-- Column._can_add_card from stacks.py: a king (value 13) on an empty
column; otherwise different color and value one below the top card. -/
def canAddCol (col : List Card) (c : Card) : Bool :=
  match col.getLast? with
  | none => c.value = 13
  | some t => decide (c.color ≠ t.color) && decide (c.value = t.value - 1)

/-- Column.add_card: append the single card if _can_add_card allows it,
otherwise raise IllegalMoveError. -/
def columnAdd (col : List Card) (c : Card) : Except SolErr (List Card) :=
  if canAddCol col c then .ok (col ++ [c]) else .error .illegalMove

/-- Column.add_cards: the legality check reads cards[0], which raises
IndexError on an empty list; only the first card of the run is checked,
then the whole run is appended verbatim. -/
def columnAddCards (col : List Card) (cs : List Card) : Except SolErr (List Card) :=
  match cs with
  | [] => .error .indexError
  | c0 :: _ => if canAddCol col c0 then .ok (col ++ cs) else .error .illegalMove

/-- Python slice cards[-n:] for 0 ≤ n ≤ len: for n = 0 this is the WHOLE
list (cards[0:]), not the empty suffix. -/
def pySliceFrom (l : List Card) (n : Nat) : List Card :=
  if n = 0 then l else l.drop (l.length - n)

/-- Python slice cards[:-n] for 0 ≤ n ≤ len: for n = 0 this is the EMPTY
list (cards[:0]). -/
def pySliceTo (l : List Card) (n : Nat) : List Card :=
  if n = 0 then [] else l.take (l.length - n)

/-- Column.take_cards: assert num_cards <= size ("not enough cards."),
then split off cards[-n:], keep cards[:-n], and flip the newly exposed top
card if the column is non-empty and its top is face down.  Returns
(taken run, remaining column, updated orientation map). -/
def columnTakeCards (col : List Card) (f : Card → Bool) (n : Nat) :
    Except SolErr (List Card × List Card × (Card → Bool)) :=
  if n > col.length then
    .error .insufficientCards
  else
    let taken := pySliceFrom col n
    let rest := pySliceTo col n
    match rest.getLast? with
    | some t => if !(f t) then .ok (taken, rest, flipCard f t) else .ok (taken, rest, f)
    | none => .ok (taken, rest, f)

/-- Column.take_card: remove the top card (AssertionError "stack is
empty." if none), then flip the newly exposed top card if it is face
down. -/
def columnTakeCard (col : List Card) (f : Card → Bool) :
    Except SolErr (Card × List Card × (Card → Bool)) :=
  match col.getLast? with
  | none => .error .emptyStack
  | some c =>
    let rest := col.dropLast
    match rest.getLast? with
    | some t => if !(f t) then .ok (c, rest, flipCard f t) else .ok (c, rest, f)
    | none => .ok (c, rest, f)

-- ----- the deck -----

/-- Deck.reset_deck: for each suit in the Card.SUITS insertion order
(clubs, diamonds, hearts, spades), cards of value 1..13 in order.  This is
the full 52-card set; Deck.shuffle permutes it. -/
def fullDeck : List Card :=
  ([Suit.clubs, Suit.diamonds, Suit.hearts, Suit.spades].map
    (fun su => (List.range 13).map (fun i => Card.mk (i + 1) su))).flatten

-- ----- solitaire.py game state -----

/-- The state owned by a Solitaire object: draw count, deck, discard pile,
the four ace piles keyed by suit, the seven columns, and the orientation
map for the card objects. -/
structure GameState where
  draw : Nat
  deck : List Card
  discard : List Card
  acePiles : Suit → List Card
  columns : List (List Card)
  faceUp : Card → Bool

/-- Update of the ace-pile dict at one suit. -/
def updateSuit (p : Suit → List Card) (su : Suit) (l : List Card) : Suit → List Card :=
  fun t => if t = su then l else p t

-- ----- solitaire.py: dealing -----

/-- The while loop of Solitaire._initialize_columns: pop k cards off the
deck top, appending each to the column via Column._push_card (no checks,
no flips). -/
def pushN (deck col : List Card) : Nat → Option (List Card × List Card)
  | 0 => some (deck, col)
  | k + 1 =>
    match takeCard deck with
    | none => none
    | some (c, d2) => pushN d2 (col ++ [c]) k

/-- Deal columns i, i+1, ..., i+n-1 of Solitaire._initialize_columns:
column j receives j face-down cards via _push_card and then one card via
_push_card plus flip.  Returns the remaining deck, the dealt columns in
order, and the updated orientation map. -/
def dealFrom (deck : List Card) (f : Card → Bool) (i : Nat) :
    Nat → Option (List Card × List (List Card) × (Card → Bool))
  | 0 => some (deck, [], f)
  | n + 1 =>
    match pushN deck [] i with
    | none => none
    | some (d1, col1) =>
      match takeCard d1 with
      | none => none
      | some (c, d2) =>
        match dealFrom d2 (flipCard f c) (i + 1) n with
        | none => none
        | some (d3, cols, f3) => some (d3, (col1 ++ [c]) :: cols, f3)

/-- Solitaire.reset_game together with the draw-count assertion of
Solitaire.__init__: draw must be 1 or 3; a fresh face-down deck (the given
shuffled permutation), empty discard pile, empty ace piles, and the seven
columns dealt by _initialize_columns. -/
def resetGame (draw : Nat) (deckCards : List Card) : Option GameState :=
  if draw = 1 ∨ draw = 3 then
    match dealFrom deckCards (fun _ => false) 0 7 with
    | none => none
    | some (d, cols, f) =>
      some { draw := draw, deck := d, discard := [], acePiles := fun _ => [],
             columns := cols, faceUp := f }
  else
    none

-- ----- solitaire.py: moves -----

/-- The for-loop body of Solitaire.draw_from_pile: pop up to k cards from
the deck top, flipping each as it is drawn, stopping (break) when the deck
runs out.  Returns the remaining deck, the drawn list, and the updated
orientation map. -/
def drawLoop : Nat → List Card → List Card → (Card → Bool) →
    List Card × List Card × (Card → Bool)
  | 0, deck, drawn, f => (deck, drawn, f)
  | k + 1, deck, drawn, f =>
    match deck.getLast? with
    | none => (deck, drawn, f)
    | some c => drawLoop k deck.dropLast (drawn ++ [c]) (flipCard f c)

/-- Solitaire.draw_from_pile.  If the deck is empty the whole discard pile
is flipped, appended to the (empty) deck and the deck reversed, and the
discard pile emptied; otherwise up to self.draw cards are moved from deck
to discard, each flipped face up.  This operation raises no error. -/
def drawFromPile (s : GameState) : GameState :=
  if s.deck = [] then
    { s with deck := (s.deck ++ s.discard).reverse,
             faceUp := flipAll s.faceUp s.discard,
             discard := [] }
  else
    let r := drawLoop s.draw s.deck [] s.faceUp
    { s with deck := r.1, discard := s.discard ++ r.2.1, faceUp := r.2.2 }

/-- Solitaire.discard_to_column: pop the discard top (IndexError if
empty, propagated with nothing changed), try Column.add_card on column i;
on IllegalMoveError push the card back onto the discard pile and
re-raise. -/
def discardToColumn (s : GameState) (i : Fin 7) : GameState × Option SolErr :=
  match s.discard.getLast? with
  | none => (s, some .indexError)
  | some card =>
    let rest := s.discard.dropLast
    let col := s.columns.getD i []
    if canAddCol col card then
      ({ s with discard := rest, columns := s.columns.set i (col ++ [card]) }, none)
    else
      ({ s with discard := rest ++ [card] }, some .illegalMove)

/-- Solitaire.discard_to_ace_pile: pop the discard top (IndexError if
empty), try AcePile.add_card on the pile of the card's suit; on
IllegalMoveError push the card back and re-raise. -/
def discardToAcePile (s : GameState) : GameState × Option SolErr :=
  match s.discard.getLast? with
  | none => (s, some .indexError)
  | some card =>
    let rest := s.discard.dropLast
    let pile := s.acePiles card.suit
    if canAddAce pile card then
      ({ s with discard := rest,
                acePiles := updateSuit s.acePiles card.suit (pile ++ [card]) }, none)
    else
      ({ s with discard := rest ++ [card] }, some .illegalMove)

/-- Solitaire.column_to_column: snapshot the source column's card list
(a shallow copy sharing the card objects), take_cards(n) from the source,
add_cards onto the destination, then flip the source's new top if face
down; on IllegalMoveError restore the source list from the snapshot (the
orientation map is NOT restored) and re-raise.  Errors other than
IllegalMoveError (the take_cards AssertionError, the cards[0] IndexError)
propagate without the restore. -/
def columnToColumn (s : GameState) (src dst : Fin 7) (n : Nat) :
    GameState × Option SolErr :=
  let snapshot := s.columns.getD src []
  match columnTakeCards snapshot s.faceUp n with
  | .error e => (s, some e)
  | .ok (cards, rest, f2) =>
    let s1 := { s with columns := s.columns.set src rest, faceUp := f2 }
    match columnAddCards (s1.columns.getD dst []) cards with
    | .error .illegalMove =>
      ({ s1 with columns := s1.columns.set src snapshot }, some .illegalMove)
    | .error e => (s1, some e)
    | .ok newDst =>
      let s2 := { s1 with columns := s1.columns.set dst newDst }
      match (s2.columns.getD src []).getLast? with
      | some t =>
        if !(s2.faceUp t) then ({ s2 with faceUp := flipCard s2.faceUp t }, none)
        else (s2, none)
      | none => (s2, none)

/-- Solitaire.column_to_ace_pile: snapshot the column's card list, take
its top card, try AcePile.add_card on the pile of the card's suit, then
flip the column's new top if face down; on IllegalMoveError restore the
column list from the snapshot (the orientation map is NOT restored) and
re-raise. -/
def columnToAcePile (s : GameState) (i : Fin 7) : GameState × Option SolErr :=
  let snapshot := s.columns.getD i []
  match columnTakeCard snapshot s.faceUp with
  | .error e => (s, some e)
  | .ok (card, rest, f2) =>
    let s1 := { s with columns := s.columns.set i rest, faceUp := f2 }
    let pile := s1.acePiles card.suit
    if canAddAce pile card then
      let s2 := { s1 with acePiles := updateSuit s1.acePiles card.suit (pile ++ [card]) }
      match (s2.columns.getD i []).getLast? with
      | some t =>
        if !(s2.faceUp t) then ({ s2 with faceUp := flipCard s2.faceUp t }, none)
        else (s2, none)
      | none => (s2, none)
    else
      ({ s1 with columns := s1.columns.set i snapshot }, some .illegalMove)

-- ----- operation sequences -----

/-- One public engine call.  The pile indices are the valid column
indices 0..6 of a Solitaire game. -/
inductive Op
  | drawFromPile
  | discardToColumn (i : Fin 7)
  | discardToAcePile
  | columnToColumn (src dst : Fin 7) (n : Nat)
  | columnToAcePile (i : Fin 7)

/-- Execute one call, returning the state after the call together with
the error it raised, if any.  A raised error leaves the game object in
whatever state the call put it in, exactly as a Python exception does. -/
def step (s : GameState) : Op → GameState × Option SolErr
  | .drawFromPile => (drawFromPile s, none)
  | .discardToColumn i => discardToColumn s i
  | .discardToAcePile => discardToAcePile s
  | .columnToColumn a b n => columnToColumn s a b n
  | .columnToAcePile i => columnToAcePile s i

/-- Run a sequence of calls on the same game object, continuing after
errors (the UI catches them and keeps playing with the mutated state). -/
def run (s : GameState) : List Op → GameState
  | [] => s
  | op :: ops => run (step s op).1 ops

/-- A state is reachable when it arises from Solitaire(draw) with draw 1
or 3, some shuffled permutation of the full deck, followed by any sequence
of engine calls. -/
def Reachable (s : GameState) : Prop :=
  ∃ (draw : Nat) (d : List Card) (s0 : GameState) (ops : List Op),
    (draw = 1 ∨ draw = 3) ∧ d.Perm fullDeck ∧ resetGame draw d = some s0 ∧
    s = run s0 ops

/-- A default state, used only as the default of Option.getD when naming
concrete computed states. -/
def emptyState : GameState :=
  { draw := 1, deck := [], discard := [], acePiles := fun _ => [],
    columns := [], faceUp := fun _ => false }

-- ----- helper lemmas -----

/-- An Option known to be some equals some of its getD value. -/
theorem isSome_eq_some_getD {α : Type} (o : Option α) (d : α) (h : o.isSome = true) :
    o = some (o.getD d) := by
  cases o with
  | none => simp at h
  | some a => rfl

-- ----- concrete shuffled decks and states used by individual claims -----

/-- A shuffle whose last three cards are 6 of spades, 5 of hearts,
9 of clubs: the deal puts 9 of clubs alone on column 0 and deals
column 1 as [5 of hearts (face down), 6 of spades (face up)]. -/
def permC1 : List Card :=
  (((fullDeck.erase (Card.mk 6 Suit.spades)).erase (Card.mk 5 Suit.hearts)).erase
      (Card.mk 9 Suit.clubs)) ++
    [Card.mk 6 Suit.spades, Card.mk 5 Suit.hearts, Card.mk 9 Suit.clubs]

/-- The freshly dealt game for permC1. -/
def c1Pre : GameState := (resetGame 1 permC1).getD emptyState

/-- A shuffle whose last three cards are 7 of diamonds, king of spades,
ace of hearts: the deal puts the ace of hearts alone on column 0 and deals
column 1 as [king of spades (face down), 7 of diamonds (face up)]. -/
def permC10 : List Card :=
  (((fullDeck.erase (Card.mk 7 Suit.diamonds)).erase (Card.mk 13 Suit.spades)).erase
      (Card.mk 1 Suit.hearts)) ++
    [Card.mk 7 Suit.diamonds, Card.mk 13 Suit.spades, Card.mk 1 Suit.hearts]

/-- The permC10 deal followed by moving the ace of hearts from column 0
to its ace pile, leaving column 0 empty. -/
def c10Pre : GameState :=
  run ((resetGame 1 permC10).getD emptyState) [Op.columnToAcePile 0]

/-- The game dealt from the unshuffled full deck. -/
def s0full : GameState := (resetGame 1 fullDeck).getD emptyState

-- ----- C1 -----

/-- C1: the claim states that a move raising IllegalMove restores every
touched pile, card sequence AND face orientations.  The code restores only
the card list: in this dealt game, column 1 is [5 of hearts face down,
6 of spades face up]; columnToColumn(1, 0, 1) takes the 6 of spades,
auto-reveals the 5 of hearts, then fails to add the 6 of spades onto the
9 of clubs and raises IllegalMove after restoring the snapshot — yet the
5 of hearts is left face up, so the rejected move is observable. -/
theorem c1_rollback_leaves_flip :
    Reachable c1Pre ∧
    c1Pre.faceUp (Card.mk 5 Suit.hearts) = false ∧
    (columnToColumn c1Pre 1 0 1).2 = some SolErr.illegalMove ∧
    (columnToColumn c1Pre 1 0 1).1.columns.getD 1 [] = c1Pre.columns.getD 1 [] ∧
    (columnToColumn c1Pre 1 0 1).1.faceUp (Card.mk 5 Suit.hearts) = true := by
  refine ⟨⟨1, permC1, c1Pre, [], Or.inl rfl, by decide, ?_, rfl⟩, ?_, ?_, ?_, ?_⟩
  · exact isSome_eq_some_getD _ _ (by decide)
  · decide
  · decide
  · decide
  · decide

-- ----- C4 -----

/-- C4: the claim states that takeRun(n) removes exactly the top n cards
for every n up to the column's size.  Column.take_cards slices with
cards[-n:] and cards[:-n], and for n = 0 Python reads these as cards[0:]
(the whole list) and cards[:0] (empty): take_cards(0) on a one-card column
returns that card and empties the column, contradicting the method's own
docstring "removes and returns num_cards in order". -/
theorem c4_takeCards_zero_takes_all :
    columnTakeCards [Card.mk 13 Suit.spades] (fun _ => false) 0 =
      .ok ([Card.mk 13 Suit.spades], [], fun _ => false) := rfl

-- ----- C10 -----

/-- C10: take_cards selects purely by count and add_cards validates only
the run's bottom card, so a run can include face-down cards.  In the
reachable state c10Pre (column 0 empty, column 1 = [king of spades face
down, 7 of diamonds face up], one face-up card), columnToColumn(1, 0, 2)
succeeds and relocates the face-down king of spades into column 0, where
it stays face down below the run's top card. -/
theorem c10_face_down_run_moves :
    ∃ s : GameState, Reachable s ∧
      ((s.columns.getD 1 []).filter s.faceUp).length = 1 ∧
      (columnToColumn s 1 0 2).2 = none ∧
      (columnToColumn s 1 0 2).1.columns.getD 0 [] =
        [Card.mk 13 Suit.spades, Card.mk 7 Suit.diamonds] ∧
      s.faceUp (Card.mk 13 Suit.spades) = false ∧
      (columnToColumn s 1 0 2).1.faceUp (Card.mk 13 Suit.spades) = false := by
  refine ⟨c10Pre,
    ⟨1, permC10, (resetGame 1 permC10).getD emptyState, [Op.columnToAcePile 0],
      Or.inl rfl, by decide, ?_, rfl⟩, ?_, ?_, ?_, ?_, ?_⟩
  · exact isSome_eq_some_getD _ _ (by decide)
  · decide
  · decide
  · decide
  · decide
  · decide

-- ----- C5 -----

/-- C5: AcePile.add_card succeeds exactly when the card's value is 1, or
the pile is non-empty with top card t and the card matches t's suit with
value t.value + 1; on success the card is appended as the new top, and
otherwise the call raises IllegalMoveError (before touching the pile,
which the pure model reflects by returning only the error). -/
theorem c5_acePileAdd_spec (pile : List Card) (c : Card) :
    (acePileAdd pile c = .ok (pile ++ [c]) ↔
      (c.value = 1 ∨
        ∃ t, pile.getLast? = some t ∧ c.suit = t.suit ∧ c.value = t.value + 1)) ∧
    (acePileAdd pile c = .error .illegalMove ↔
      ¬(c.value = 1 ∨
        ∃ t, pile.getLast? = some t ∧ c.suit = t.suit ∧ c.value = t.value + 1)) := by
  unfold acePileAdd canAddAce
  by_cases hv : c.value = 1
  · simp [hv]
  · cases h : pile.getLast? with
    | none => simp [hv, h]
    | some t => by_cases hs : c.suit = t.suit <;> by_cases hn : c.value = t.value + 1 <;>
        simp [hv, h, hs, hn]

/-- Witness for c5_acePileAdd_spec at a concrete input: an ace is
accepted on an empty pile. -/
theorem c5_acePileAdd_spec_witness :
    acePileAdd [] (Card.mk 1 Suit.hearts) = .ok [Card.mk 1 Suit.hearts] :=
  (c5_acePileAdd_spec [] (Card.mk 1 Suit.hearts)).1.mpr (Or.inl rfl)

-- ----- C6 -----

/-- C6: Column.add_card succeeds exactly when the column is empty and the
card is a king (value 13), or the column is non-empty with top card t and
the card's color differs from t's color with value t.value - 1; otherwise
it raises IllegalMoveError (before touching the column, which the pure
model reflects by returning only the error). -/
theorem c6_columnAdd_spec (col : List Card) (c : Card) :
    (columnAdd col c = .ok (col ++ [c]) ↔
      ((col = [] ∧ c.value = 13) ∨
        ∃ t, col.getLast? = some t ∧ c.color ≠ t.color ∧ c.value = t.value - 1)) ∧
    (columnAdd col c = .error .illegalMove ↔
      ¬((col = [] ∧ c.value = 13) ∨
        ∃ t, col.getLast? = some t ∧ c.color ≠ t.color ∧ c.value = t.value - 1)) := by
  unfold columnAdd canAddCol
  cases h : col.getLast? with
  | none =>
    have hcol : col = [] := List.getLast?_eq_none_iff.mp h
    by_cases hv : c.value = 13 <;> simp [h, hcol, hv]
  | some t =>
    have hcol : col ≠ [] := by
      intro hc
      rw [hc] at h
      simp at h
    by_cases hc : c.color = t.color <;> by_cases hn : c.value = t.value - 1 <;>
      simp [h, hcol, hc, hn]

/-- Witness for c6_columnAdd_spec at a concrete input: a king is accepted
on an empty column. -/
theorem c6_columnAdd_spec_witness :
    columnAdd [] (Card.mk 13 Suit.hearts) = .ok [Card.mk 13 Suit.hearts] :=
  (c6_columnAdd_spec [] (Card.mk 13 Suit.hearts)).1.mpr (Or.inl ⟨rfl, rfl⟩)

-- ----- C7 counterexample -----

/-- C7 as stated is false: the claim requires that after setup every
adjacent pair of a column, bottom-to-top, has strictly descending rank and
alternating color, but the deal pushes arbitrary shuffled cards.  Dealt
from the unshuffled full deck, column 1 holds the queen and jack of
spades: an adjacent pair of the same color in a reachable post-setup
state. -/
theorem c7_dealt_column_same_color :
    Reachable s0full ∧
    s0full.columns.getD 1 [] = [Card.mk 12 Suit.spades, Card.mk 11 Suit.spades] ∧
    (Card.mk 12 Suit.spades).color = (Card.mk 11 Suit.spades).color := by
  refine ⟨⟨1, fullDeck, s0full, [], Or.inl rfl, List.Perm.refl _, ?_, rfl⟩, ?_, ?_⟩
  · exact isSome_eq_some_getD _ _ (by decide)
  · decide
  · decide

-- ----- orientation-map lemmas -----

theorem flipCard_self (f : Card → Bool) (c : Card) : flipCard f c c = !(f c) := by
  simp [flipCard]

theorem flipCard_ne (f : Card → Bool) (c x : Card) (h : x ≠ c) : flipCard f c x = f x := by
  simp [flipCard, h]

theorem flipAll_nil (f : Card → Bool) : flipAll f [] = f := rfl

theorem flipAll_cons (f : Card → Bool) (c : Card) (l : List Card) :
    flipAll f (c :: l) = flipAll (flipCard f c) l := rfl

theorem flipAll_not_mem (f : Card → Bool) (l : List Card) (x : Card) (h : x ∉ l) :
    flipAll f l x = f x := by
  induction l generalizing f with
  | nil => rfl
  | cons c t ih =>
    rw [flipAll_cons, ih _ (fun hx => h (List.mem_cons_of_mem _ hx)),
      flipCard_ne _ _ _ (fun hx => h (by rw [hx]; exact List.mem_cons_self _ _))]

theorem flipAll_mem (f : Card → Bool) (l : List Card) (x : Card) (hnd : l.Nodup)
    (hx : x ∈ l) : flipAll f l x = !(f x) := by
  induction l generalizing f with
  | nil => simp at hx
  | cons c t ih =>
    rw [flipAll_cons]
    rcases List.mem_cons.mp hx with h | h
    · subst h
      rw [flipAll_not_mem _ _ _ (List.nodup_cons.mp hnd).1, flipCard_self]
    · rw [ih _ (List.nodup_cons.mp hnd).2 h,
        flipCard_ne _ _ _ (fun hx2 => (List.nodup_cons.mp hnd).1 (by rw [← hx2]; exact h))]

-- ----- drawLoop characterization -----

theorem drawLoop_concat (k : Nat) (D : List Card) (c : Card) (drawn : List Card)
    (f : Card → Bool) :
    drawLoop (k + 1) (D ++ [c]) drawn f = drawLoop k D (drawn ++ [c]) (flipCard f c) := by
  simp [drawLoop]

theorem drawLoop_nil (k : Nat) (drawn : List Card) (f : Card → Bool) :
    drawLoop k [] drawn f = ([], drawn, f) := by
  cases k <;> simp [drawLoop]

/-- With enough cards, a k-card draw loop pops exactly the last k cards of
the deck; U lists them in pop order (deck top first). -/
theorem drawLoop_spec_le (U : List Card) :
    ∀ (D drawn : List Card) (f : Card → Bool),
      drawLoop U.length (D ++ U.reverse) drawn f = (D, drawn ++ U, flipAll f U) := by
  induction U with
  | nil => intro D drawn f; simp [drawLoop, flipAll]
  | cons c u ih =>
    intro D drawn f
    have h1 : D ++ (c :: u).reverse = (D ++ u.reverse) ++ [c] := by simp
    rw [h1]
    show drawLoop (u.length + 1) ((D ++ u.reverse) ++ [c]) drawn f = _
    rw [drawLoop_concat, ih]
    simp [flipAll_cons]

/-- With fuel at least the deck size, the draw loop empties the deck. -/
theorem drawLoop_all (U : List Card) :
    ∀ (k : Nat) (drawn : List Card) (f : Card → Bool), U.length ≤ k →
      drawLoop k U.reverse drawn f = ([], drawn ++ U, flipAll f U) := by
  induction U with
  | nil => intro k drawn f _; simp [drawLoop_nil, flipAll]
  | cons c u ih =>
    intro k drawn f hk
    match k, hk with
    | k2 + 1, hk =>
      have h1 : (c :: u).reverse = u.reverse ++ [c] := by simp
      rw [h1, drawLoop_concat, ih k2 _ _ (Nat.lt_succ_iff.mp hk)]
      simp [flipAll_cons]

-- ----- C9 -----

/-- C9: drawFromPile on a non-empty deck raises no error and moves exactly
min(drawCount, deck size) cards from the deck top to the discard top,
flipping each face up (they were face down in the deck) and stopping early
when the deck empties; with drawCount = 1 the deck shrinks by one and the
discard grows by one. -/
theorem c9_drawFromPile_spec (s : GameState) (h1 : s.deck ≠ [])
    (h2 : s.deck.Nodup) (h3 : ∀ c ∈ s.deck, s.faceUp c = false) :
    (step s .drawFromPile).2 = none ∧
    (drawFromPile s).deck =
      s.deck.take (s.deck.length - min s.draw s.deck.length) ∧
    (drawFromPile s).discard =
      s.discard ++ (s.deck.drop (s.deck.length - min s.draw s.deck.length)).reverse ∧
    (∀ c ∈ s.deck.drop (s.deck.length - min s.draw s.deck.length),
      (drawFromPile s).faceUp c = true) ∧
    (s.draw = 1 →
      (drawFromPile s).deck.length + 1 = s.deck.length ∧
      (drawFromPile s).discard.length = s.discard.length + 1) := by
  have hlen : 0 < s.deck.length := List.length_pos.mpr h1
  rcases le_or_lt s.draw s.deck.length with hk | hk
  · -- the deck has at least draw cards: exactly draw cards move
    have hmin : min s.draw s.deck.length = s.draw := Nat.min_eq_left hk
    set D := s.deck.take (s.deck.length - s.draw) with hD
    set U := (s.deck.drop (s.deck.length - s.draw)).reverse with hU
    have hUlen : U.length = s.draw := by
      simp [hU, List.length_drop]
      omega
    have hsplit : s.deck = D ++ U.reverse := by
      simp [hD, hU]
    have hloop : drawLoop s.draw s.deck [] s.faceUp = (D, U, flipAll s.faceUp U) := by
      have := drawLoop_spec_le U D [] s.faceUp
      rw [hUlen] at this
      rw [hsplit, this]
      simp
    have hdf : drawFromPile s =
        { s with deck := D, discard := s.discard ++ U, faceUp := flipAll s.faceUp U } := by
      rw [drawFromPile, if_neg h1, hloop]
    have hUnd : U.Nodup := by
      rw [hU, List.nodup_reverse]
      exact h2.sublist (List.drop_sublist _ _)
    have hUmem : ∀ c ∈ U, c ∈ s.deck := by
      intro c hc
      rw [hU, List.mem_reverse] at hc
      exact List.mem_of_mem_drop hc
    refine ⟨rfl, ?_, ?_, ?_, ?_⟩
    · rw [hdf, hmin]
    · rw [hdf, hmin, hU]
    · intro c hc
      rw [hdf]
      have hcU : c ∈ U := by
        rw [hU, List.mem_reverse]
        rw [hmin] at hc
        exact hc
      show flipAll s.faceUp U c = true
      rw [flipAll_mem _ _ _ hUnd hcU, h3 c (hUmem c hcU)]
      rfl
    · intro hdr
      constructor
      · rw [hdf]
        simp [hD, List.length_take]
        omega
      · rw [hdf]
        simp [hU, List.length_drop]
        omega
  · -- fewer than draw cards: the loop stops when the deck empties
    have hmin : min s.draw s.deck.length = s.deck.length := Nat.min_eq_right (Nat.le_of_lt hk)
    have hloop : drawLoop s.draw s.deck [] s.faceUp =
        ([], s.deck.reverse, flipAll s.faceUp s.deck.reverse) := by
      have := drawLoop_all s.deck.reverse s.draw [] s.faceUp
        (by rw [List.length_reverse]; exact Nat.le_of_lt hk)
      rw [List.reverse_reverse] at this
      rw [this]
      simp
    have hdf : drawFromPile s =
        { s with deck := [], discard := s.discard ++ s.deck.reverse,
                 faceUp := flipAll s.faceUp s.deck.reverse } := by
      rw [drawFromPile, if_neg h1, hloop]
    refine ⟨rfl, ?_, ?_, ?_, ?_⟩
    · rw [hdf, hmin]
      simp
    · rw [hdf, hmin]
      simp
    · intro c hc
      rw [hmin, Nat.sub_self, List.drop_zero] at hc
      rw [hdf]
      have hcU : c ∈ s.deck.reverse := List.mem_reverse.mpr hc
      show flipAll s.faceUp s.deck.reverse c = true
      rw [flipAll_mem _ _ _ (List.nodup_reverse.mpr h2) hcU, h3 c hc]
      rfl
    · intro hdr
      omega

/-- A concrete state for the C9 witness: a two-card face-down deck. -/
def c9State : GameState :=
  { draw := 1,
    deck := [Card.mk 2 Suit.hearts, Card.mk 9 Suit.clubs],
    discard := [], acePiles := fun _ => [], columns := [],
    faceUp := fun _ => false }

/-- Witness for c9_drawFromPile_spec: drawing one card from a two-card
face-down deck leaves one card and discards the top card face up. -/
theorem c9_drawFromPile_spec_witness :
    (drawFromPile c9State).deck.length + 1 = c9State.deck.length ∧
    (drawFromPile c9State).discard.length = c9State.discard.length + 1 :=
  (c9_drawFromPile_spec c9State (by decide) (by decide) (by decide)).2.2.2.2 rfl

-- ----- C3 -----

/-- Iterated calls of draw_from_pile on the same game. -/
def iterDraw : Nat → GameState → GameState
  | 0, s => s
  | n + 1, s => iterDraw n (drawFromPile s)

/-- Drawing one card at a time through a deck holding d in reverse order
appends d, in order, to the discard pile, flipping each card. -/
theorem iterDraw_rev (d : List Card) :
    ∀ s : GameState, s.draw = 1 → s.deck = d.reverse →
      (iterDraw d.length s).discard = s.discard ++ d ∧
      (∀ x, (iterDraw d.length s).faceUp x = flipAll s.faceUp d x) := by
  induction d with
  | nil =>
    intro s hdr hdk
    exact ⟨(List.append_nil s.discard).symm, fun x => rfl⟩
  | cons c t ih =>
    intro s hdr hdk
    have hne : s.deck ≠ [] := by
      rw [hdk]
      simp
    have hloop : drawLoop s.draw s.deck [] s.faceUp =
        (t.reverse, [c], flipCard s.faceUp c) := by
      rw [hdr]
      show drawLoop (0 + 1) s.deck [] s.faceUp = _
      have hdk2 : s.deck = t.reverse ++ [c] := by
        rw [hdk]
        simp
      rw [hdk2, drawLoop_concat, drawLoop]
      simp
    have hdf : drawFromPile s =
        { s with deck := t.reverse, discard := s.discard ++ [c],
                 faceUp := flipCard s.faceUp c } := by
      rw [drawFromPile, if_neg hne, hloop]
    have hstep : iterDraw (c :: t).length s = iterDraw t.length (drawFromPile s) := rfl
    rw [hstep, hdf]
    have := ih { s with deck := t.reverse, discard := s.discard ++ [c],
                        faceUp := flipCard s.faceUp c } hdr rfl
    refine ⟨?_, ?_⟩
    · rw [this.1]
      simp
    · intro x
      rw [this.2 x]
      rfl

/-- Flipping a concatenation flips the first part, then the second. -/
theorem flipAll_append (f : Card → Bool) (a b : List Card) :
    flipAll f (a ++ b) = flipAll (flipAll f a) b := by
  simp [flipAll, List.foldl_append]

/-- draw_from_pile on a deck holding d in reverse order pops the first
min(drawCount, size) cards of d, appends them in order to the discard
pile, and flips each of them. -/
theorem drawFromPile_rev (d : List Card) (s : GameState) (hne : d ≠ [])
    (hdk : s.deck = d.reverse) :
    drawFromPile s =
      { s with deck := (d.drop (min s.draw d.length)).reverse,
               discard := s.discard ++ d.take (min s.draw d.length),
               faceUp := flipAll s.faceUp (d.take (min s.draw d.length)) } := by
  have hdkne : s.deck ≠ [] := by
    rw [hdk]
    simpa using hne
  rcases le_or_lt s.draw d.length with hk | hk
  · have hmin : min s.draw d.length = s.draw := Nat.min_eq_left hk
    have hsplit : s.deck = (d.drop s.draw).reverse ++ (d.take s.draw).reverse := by
      rw [hdk]
      conv_lhs => rw [← List.take_append_drop s.draw d]
      rw [List.reverse_append]
    have hUlen : (d.take s.draw).length = s.draw := by
      simp [List.length_take]
      omega
    have hloop := drawLoop_spec_le (d.take s.draw) ((d.drop s.draw).reverse) [] s.faceUp
    rw [hUlen] at hloop
    rw [drawFromPile, if_neg hdkne, hsplit, hloop, hmin]
    simp
  · have hmin : min s.draw d.length = d.length := Nat.min_eq_right (le_of_lt hk)
    have hloop := drawLoop_all d s.draw [] s.faceUp (le_of_lt hk)
    rw [drawFromPile, if_neg hdkne, hdk, hloop, hmin]
    simp

/-- Calling draw_from_pile exactly enough times to exhaust a deck holding
d in reverse order (and not once more) appends d, in draw order, to the
discard pile, flipping each card, whatever the draw count is: with draw
count k, call m satisfies (m-1)k < |d| <= mk. -/
theorem iterDraw_chunks :
    ∀ (m : Nat) (d : List Card) (s : GameState), 1 ≤ s.draw → s.deck = d.reverse →
      d.length ≤ m * s.draw → m * s.draw < d.length + s.draw →
      (iterDraw m s).discard = s.discard ++ d ∧
      (iterDraw m s).deck = [] ∧
      (∀ x, (iterDraw m s).faceUp x = flipAll s.faceUp d x) := by
  intro m
  induction m with
  | zero =>
    intro d s hdr hdk h1 h2
    have hd0 : d = [] := by
      rw [Nat.zero_mul] at h1
      exact List.eq_nil_of_length_eq_zero (Nat.le_zero.mp h1)
    subst hd0
    refine ⟨(List.append_nil s.discard).symm, ?_, fun x => rfl⟩
    show s.deck = []
    simpa using hdk
  | succ m2 ih =>
    intro d s hdr hdk h1 h2
    have hne : d ≠ [] := by
      intro h0
      subst h0
      simp only [List.length_nil, Nat.zero_add] at h2
      have hle : s.draw ≤ (m2 + 1) * s.draw := Nat.le_mul_of_pos_left s.draw (Nat.succ_pos m2)
      exact absurd (lt_of_le_of_lt hle h2) (lt_irrefl _)
    have hchar := drawFromPile_rev d s hne hdk
    have hdr2 : (drawFromPile s).draw = s.draw := by rw [hchar]
    have hdk2 : (drawFromPile s).deck = (d.drop (min s.draw d.length)).reverse := by
      rw [hchar]
    have hkey : d.length - min s.draw d.length ≤ m2 * s.draw ∧
        m2 * s.draw < (d.length - min s.draw d.length) + s.draw := by
      have hq1 : d.length ≤ m2 * s.draw + s.draw := by
        rw [← Nat.succ_mul]
        exact h1
      have hq2 : m2 * s.draw + s.draw < d.length + s.draw := by
        rw [← Nat.succ_mul]
        exact h2
      omega
    have hrec := ih (d.drop (min s.draw d.length)) (drawFromPile s)
      (by rw [hdr2]; exact hdr) hdk2
      (by rw [hdr2, List.length_drop]; exact hkey.1)
      (by rw [hdr2, List.length_drop]; exact hkey.2)
    have hstep : iterDraw (m2 + 1) s = iterDraw m2 (drawFromPile s) := rfl
    rw [hstep]
    refine ⟨?_, hrec.2.1, ?_⟩
    · rw [hrec.1, hchar]
      dsimp only
      rw [List.append_assoc, List.take_append_drop]
    · intro x
      rw [hrec.2.2 x, hchar]
      show flipAll (flipAll s.faceUp (d.take (min s.draw d.length)))
        (d.drop (min s.draw d.length)) x = flipAll s.faceUp d x
      rw [← flipAll_append, List.take_append_drop]

/-- C3: drawing on an empty deck recycles the discard pile: the deck
becomes the discard pile reversed (so the least-recently-discarded card is
the next card drawn), every recycled card is flipped face down, other
cards keep their orientation, the discard pile empties, and (with draw
any draw count at least 1, in particular 1 and 3) drawing through the
whole recycled deck, in exactly the number of calls that exhausts it,
empties the deck and reproduces the original discard pile, every card
face up again. -/
theorem c3_recycle_spec (s : GameState) (h0 : s.deck = [])
    (h1 : s.discard.Nodup) (h2 : ∀ c ∈ s.discard, s.faceUp c = true) :
    (drawFromPile s).deck = s.discard.reverse ∧
    (drawFromPile s).discard = [] ∧
    (∀ c ∈ s.discard, (drawFromPile s).faceUp c = false) ∧
    (∀ c, c ∉ s.discard → (drawFromPile s).faceUp c = s.faceUp c) ∧
    (∀ m : Nat, 1 ≤ s.draw → s.discard.length ≤ m * s.draw →
      m * s.draw < s.discard.length + s.draw →
      (iterDraw m (drawFromPile s)).discard = s.discard ∧
      (iterDraw m (drawFromPile s)).deck = [] ∧
      ∀ c ∈ s.discard, (iterDraw m (drawFromPile s)).faceUp c = true) := by
  have hdf : drawFromPile s =
      { s with deck := (s.deck ++ s.discard).reverse,
               faceUp := flipAll s.faceUp s.discard, discard := [] } := by
    rw [drawFromPile, if_pos h0]
  have hdeck : (drawFromPile s).deck = s.discard.reverse := by
    rw [hdf, h0]
    rfl
  refine ⟨hdeck, by rw [hdf], ?_, ?_, ?_⟩
  · intro c hc
    rw [hdf]
    show flipAll s.faceUp s.discard c = false
    rw [flipAll_mem _ _ _ h1 hc, h2 c hc]
    rfl
  · intro c hc
    rw [hdf]
    exact flipAll_not_mem _ _ _ hc
  · intro m hdr1 hm1 hm2
    have hdf2 : (drawFromPile s).draw = s.draw := by rw [hdf]
    have hrec := iterDraw_chunks m s.discard (drawFromPile s)
      (by rw [hdf2]; exact hdr1) hdeck (by rw [hdf2]; exact hm1)
      (by rw [hdf2]; exact hm2)
    have hdis : (drawFromPile s).discard = [] := by rw [hdf]
    refine ⟨?_, hrec.2.1, ?_⟩
    · rw [hrec.1, hdis]
      rfl
    · intro c hc
      rw [hrec.2.2 c, hdf]
      show flipAll (flipAll s.faceUp s.discard) s.discard c = true
      rw [flipAll_mem _ _ _ h1 hc, flipAll_mem _ _ _ h1 hc, h2 c hc]
      rfl

/-- A concrete state for the C3 witness: an empty deck and a two-card
face-up discard pile. -/
def c3State : GameState :=
  { draw := 1, deck := [],
    discard := [Card.mk 2 Suit.hearts, Card.mk 9 Suit.clubs],
    acePiles := fun _ => [], columns := [],
    faceUp := fun c => decide (c = Card.mk 2 Suit.hearts) || decide (c = Card.mk 9 Suit.clubs) }

/-- Witness for c3_recycle_spec: recycling a two-card discard pile and
drawing twice reproduces it. -/
theorem c3_recycle_spec_witness :
    (iterDraw 2 (drawFromPile c3State)).discard = c3State.discard :=
  ((c3_recycle_spec c3State rfl (by decide) (by decide)).2.2.2.2 2
    (by decide) (by decide) (by decide)).1

-- ----- card conservation: the multiset of cards across all piles -----

/-- Multiset of cards held by a list of columns. -/
def colsM (l : List (List Card)) : Multiset Card :=
  (l.map (fun c => (c : Multiset Card))).sum

/-- Multiset of cards held by the four ace piles. -/
def acesM (p : Suit → List Card) : Multiset Card :=
  (p .clubs : Multiset Card) + (p .diamonds : Multiset Card) +
    (p .hearts : Multiset Card) + (p .spades : Multiset Card)

/-- Every card in the game, across deck, discard pile, ace piles and
columns. -/
def cardMultiset (s : GameState) : Multiset Card :=
  (s.deck : Multiset Card) + (s.discard : Multiset Card) +
    acesM s.acePiles + colsM s.columns

theorem colsM_nil : colsM [] = 0 := rfl

theorem colsM_cons (a : List Card) (l : List (List Card)) :
    colsM (a :: l) = (a : Multiset Card) + colsM l := by
  simp [colsM]

theorem colsM_set (l : List (List Card)) :
    ∀ (i : Nat) (a : List Card), i < l.length →
      colsM (l.set i a) + (l.getD i [] : Multiset Card) =
        colsM l + (a : Multiset Card) := by
  induction l with
  | nil => intro i a h; simp at h
  | cons b t ih =>
    intro i a h
    cases i with
    | zero =>
      simp only [List.set_cons_zero, List.getD_cons_zero, colsM_cons]
      abel
    | succ j =>
      simp only [List.set_cons_succ, List.getD_cons_succ, colsM_cons]
      have := ih j a (by simpa using h)
      calc (b : Multiset Card) + colsM (t.set j a) + (t.getD j [] : Multiset Card)
          = (b : Multiset Card) + (colsM (t.set j a) + (t.getD j [] : Multiset Card)) := by abel
        _ = (b : Multiset Card) + (colsM t + (a : Multiset Card)) := by rw [this]
        _ = (b : Multiset Card) + colsM t + (a : Multiset Card) := by abel

theorem acesM_update (p : Suit → List Card) (su : Suit) (l : List Card) :
    acesM (updateSuit p su l) + (p su : Multiset Card) =
      acesM p + (l : Multiset Card) := by
  cases su with
  | clubs =>
    show (l : Multiset Card) + (p .diamonds : Multiset Card) + (p .hearts : Multiset Card) +
      (p .spades : Multiset Card) + (p .clubs : Multiset Card) =
      (p .clubs : Multiset Card) + (p .diamonds : Multiset Card) + (p .hearts : Multiset Card) +
      (p .spades : Multiset Card) + (l : Multiset Card)
    abel
  | diamonds =>
    show (p .clubs : Multiset Card) + (l : Multiset Card) + (p .hearts : Multiset Card) +
      (p .spades : Multiset Card) + (p .diamonds : Multiset Card) =
      (p .clubs : Multiset Card) + (p .diamonds : Multiset Card) + (p .hearts : Multiset Card) +
      (p .spades : Multiset Card) + (l : Multiset Card)
    abel
  | hearts =>
    show (p .clubs : Multiset Card) + (p .diamonds : Multiset Card) + (l : Multiset Card) +
      (p .spades : Multiset Card) + (p .hearts : Multiset Card) =
      (p .clubs : Multiset Card) + (p .diamonds : Multiset Card) + (p .hearts : Multiset Card) +
      (p .spades : Multiset Card) + (l : Multiset Card)
    abel
  | spades =>
    show (p .clubs : Multiset Card) + (p .diamonds : Multiset Card) + (p .hearts : Multiset Card) +
      (l : Multiset Card) + (p .spades : Multiset Card) =
      (p .clubs : Multiset Card) + (p .diamonds : Multiset Card) + (p .hearts : Multiset Card) +
      (p .spades : Multiset Card) + (l : Multiset Card)
    abel

/-- Recover the list from its top card: dropLast plus getLast. -/
theorem getLast?_decomp (l : List Card) (c : Card) (h : l.getLast? = some c) :
    l.dropLast ++ [c] = l := by
  induction l using List.reverseRecOn with
  | nil => simp at h
  | append_singleton D a ih =>
    rw [List.getLast?_concat] at h
    cases h
    simp

theorem takeCard_inv (l : List Card) (c : Card) (r : List Card)
    (h : takeCard l = some (c, r)) : r ++ [c] = l := by
  unfold takeCard at h
  cases hg : l.getLast? with
  | none => rw [hg] at h; cases h
  | some a =>
    rw [hg] at h
    simp only [Option.some.injEq, Prod.mk.injEq] at h
    rw [← h.2, ← h.1]
    exact getLast?_decomp l a hg

theorem pySlice_append (l : List Card) (n : Nat) :
    pySliceTo l n ++ pySliceFrom l n = l := by
  by_cases h : n = 0
  · simp [pySliceTo, pySliceFrom, h]
  · simp [pySliceTo, pySliceFrom, h]

theorem columnTakeCards_ok_inv (col : List Card) (f : Card → Bool) (n : Nat)
    (a b : List Card) (g : Card → Bool)
    (h : columnTakeCards col f n = .ok (a, b, g)) :
    n ≤ col.length ∧ a = pySliceFrom col n ∧ b = pySliceTo col n := by
  unfold columnTakeCards at h
  split at h
  · cases h
  next hn =>
    refine ⟨Nat.le_of_not_lt hn, ?_⟩
    dsimp only at h
    split at h
    · split at h <;> simp only [Except.ok.injEq, Prod.mk.injEq] at h <;>
        exact ⟨h.1.symm, h.2.1.symm⟩
    · simp only [Except.ok.injEq, Prod.mk.injEq] at h
      exact ⟨h.1.symm, h.2.1.symm⟩

theorem columnTakeCard_ok_inv (col : List Card) (f : Card → Bool)
    (c : Card) (b : List Card) (g : Card → Bool)
    (h : columnTakeCard col f = .ok (c, b, g)) :
    col.getLast? = some c ∧ b = col.dropLast := by
  unfold columnTakeCard at h
  split at h
  · cases h
  next c2 hg =>
    dsimp only at h
    split at h
    · split at h <;> simp only [Except.ok.injEq, Prod.mk.injEq] at h <;>
        exact ⟨by rw [hg, h.1], h.2.1.symm⟩
    · simp only [Except.ok.injEq, Prod.mk.injEq] at h
      exact ⟨by rw [hg, h.1], h.2.1.symm⟩

/-- Coercion of a list append into a multiset sum, oriented for use as a
rewrite toward sums. -/
theorem listM_append (l r : List Card) :
    ((l ++ r : List Card) : Multiset Card) = (l : Multiset Card) + (r : Multiset Card) :=
  (Multiset.coe_add l r).symm

/-- The draw loop only moves cards from deck to drawn. -/
theorem drawLoop_sum (k : Nat) :
    ∀ (deck drawn : List Card) (f : Card → Bool),
      ((drawLoop k deck drawn f).1 : Multiset Card) +
        ((drawLoop k deck drawn f).2.1 : Multiset Card) =
      (deck : Multiset Card) + (drawn : Multiset Card) := by
  induction k with
  | zero => intro deck drawn f; rfl
  | succ k2 ih =>
    intro deck drawn f
    cases hg : deck.getLast? with
    | none => simp [drawLoop, hg]
    | some c =>
      simp only [drawLoop, hg]
      rw [ih, listM_append]
      have hdec : deck.dropLast ++ [c] = deck := getLast?_decomp deck c hg
      conv_rhs => rw [← hdec, listM_append]
      abel

theorem getD_set_self (l : List (List Card)) (i : Nat) (a : List Card)
    (h : i < l.length) : (l.set i a).getD i [] = a := by
  rw [List.getD_eq_getElem?_getD, List.getElem?_set_self]
  · simp
  · simpa using h

theorem coe_nil_M : (([] : List Card) : Multiset Card) = 0 := rfl

/-- draw_from_pile moves cards between deck and discard only. -/
theorem drawFromPile_multiset (s : GameState) :
    cardMultiset (drawFromPile s) = cardMultiset s ∧
    (drawFromPile s).columns = s.columns := by
  unfold drawFromPile
  by_cases hd : s.deck = []
  · rw [if_pos hd]
    refine ⟨?_, rfl⟩
    unfold cardMultiset
    simp only [Multiset.coe_reverse, listM_append, coe_nil_M]
    abel
  · rw [if_neg hd]
    refine ⟨?_, rfl⟩
    unfold cardMultiset
    dsimp only
    have hsum := drawLoop_sum s.draw s.deck [] s.faceUp
    rw [coe_nil_M, add_zero] at hsum
    simp only [listM_append]
    calc ((drawLoop s.draw s.deck [] s.faceUp).1 : Multiset Card) +
          ((s.discard : Multiset Card) + ((drawLoop s.draw s.deck [] s.faceUp).2.1 : Multiset Card)) +
          acesM s.acePiles + colsM s.columns
        = (((drawLoop s.draw s.deck [] s.faceUp).1 : Multiset Card) +
            ((drawLoop s.draw s.deck [] s.faceUp).2.1 : Multiset Card)) +
          (s.discard : Multiset Card) + acesM s.acePiles + colsM s.columns := by abel
      _ = (s.deck : Multiset Card) + (s.discard : Multiset Card) +
          acesM s.acePiles + colsM s.columns := by rw [hsum]

/-- discard_to_column conserves the cards. -/
theorem discardToColumn_multiset (s : GameState) (i : Fin 7)
    (h7 : s.columns.length = 7) :
    cardMultiset (discardToColumn s i).1 = cardMultiset s ∧
    (discardToColumn s i).1.columns.length = 7 := by
  unfold discardToColumn
  cases hg : s.discard.getLast? with
  | none => exact ⟨rfl, h7⟩
  | some card =>
    have hdd : s.discard.dropLast ++ [card] = s.discard := getLast?_decomp _ _ hg
    dsimp only
    have hlt : (i : Nat) < s.columns.length := by rw [h7]; exact i.isLt
    by_cases hca : canAddCol (s.columns.getD i []) card
    · rw [if_pos hca]
      refine ⟨?_, by simpa using h7⟩
      unfold cardMultiset
      dsimp only
      have hset := colsM_set s.columns i (s.columns.getD i [] ++ [card]) hlt
      rw [listM_append] at hset
      have key : colsM (s.columns.set i (s.columns.getD i [] ++ [card])) =
          colsM s.columns + (([card] : List Card) : Multiset Card) := by
        have h2 : colsM (s.columns.set i (s.columns.getD i [] ++ [card])) +
            (s.columns.getD i [] : Multiset Card) =
            (colsM s.columns + (([card] : List Card) : Multiset Card)) +
            (s.columns.getD i [] : Multiset Card) := by
          rw [hset]
          abel
        exact add_right_cancel h2
      rw [key]
      conv_rhs => rw [← hdd]
      simp only [listM_append]
      abel
    · rw [if_neg hca]
      refine ⟨?_, h7⟩
      unfold cardMultiset
      dsimp only
      rw [hdd]

/-- discard_to_ace_pile conserves the cards. -/
theorem discardToAcePile_multiset (s : GameState)
    (h7 : s.columns.length = 7) :
    cardMultiset (discardToAcePile s).1 = cardMultiset s ∧
    (discardToAcePile s).1.columns.length = 7 := by
  unfold discardToAcePile
  cases hg : s.discard.getLast? with
  | none => exact ⟨rfl, h7⟩
  | some card =>
    have hdd : s.discard.dropLast ++ [card] = s.discard := getLast?_decomp _ _ hg
    dsimp only
    by_cases hca : canAddAce (s.acePiles card.suit) card
    · rw [if_pos hca]
      refine ⟨?_, h7⟩
      unfold cardMultiset
      dsimp only
      have hupd := acesM_update s.acePiles card.suit (s.acePiles card.suit ++ [card])
      rw [listM_append] at hupd
      have key : acesM (updateSuit s.acePiles card.suit (s.acePiles card.suit ++ [card])) =
          acesM s.acePiles + (([card] : List Card) : Multiset Card) := by
        have h2 : acesM (updateSuit s.acePiles card.suit (s.acePiles card.suit ++ [card])) +
            (s.acePiles card.suit : Multiset Card) =
            (acesM s.acePiles + (([card] : List Card) : Multiset Card)) +
            (s.acePiles card.suit : Multiset Card) := by
          rw [hupd]
          abel
        exact add_right_cancel h2
      rw [key]
      conv_rhs => rw [← hdd]
      simp only [listM_append]
      abel
    · rw [if_neg hca]
      refine ⟨?_, h7⟩
      unfold cardMultiset
      dsimp only
      rw [hdd]

/-- column_to_column conserves the cards, on success, on rollback, and on
the uncaught-error paths. -/
theorem columnToColumn_multiset (s : GameState) (src dst : Fin 7) (n : Nat)
    (h7 : s.columns.length = 7) :
    cardMultiset (columnToColumn s src dst n).1 = cardMultiset s ∧
    (columnToColumn s src dst n).1.columns.length = 7 := by
  have hsrc : (src : Nat) < s.columns.length := by rw [h7]; exact src.isLt
  unfold columnToColumn
  dsimp only
  cases htc : columnTakeCards (s.columns.getD src []) s.faceUp n with
  | error e => simp only [htc]; exact ⟨by trivial, h7⟩
  | ok res =>
    obtain ⟨cards, rest, f2⟩ := res
    obtain ⟨hn, hcards, hrest⟩ := columnTakeCards_ok_inv _ _ _ _ _ _ htc
    have hra : rest ++ cards = s.columns.getD src [] := by
      rw [hcards, hrest]
      exact pySlice_append _ _
    have hset1 := colsM_set s.columns src rest hsrc
    have hsrc2 : (src : Nat) < (s.columns.set src rest).length := by
      rw [List.length_set]
      exact hsrc
    have hdst2 : (dst : Nat) < (s.columns.set src rest).length := by
      rw [List.length_set, h7]
      exact dst.isLt
    simp only [htc]
    cases cards with
    | nil =>
      have hsnap : s.columns.getD src [] = [] := by
        by_cases h0 : n = 0
        · rw [h0] at hcards
          unfold pySliceFrom at hcards
          simpa using hcards.symm
        · exfalso
          unfold pySliceFrom at hcards
          rw [if_neg h0] at hcards
          have := List.drop_eq_nil_iff.mp hcards.symm
          omega
      have hrest2 : rest = [] := by
        rw [hsnap] at hra
        simpa using hra
      simp only [columnAddCards]
      refine ⟨?_, by simpa using h7⟩
      unfold cardMultiset
      dsimp only
      rw [hrest2]
      rw [hsnap, hrest2] at hset1
      have hcs : colsM (s.columns.set src []) = colsM s.columns := by
        have := hset1
        rw [coe_nil_M, add_zero, add_zero] at this
        exact this
      rw [hcs]
    | cons c0 cs2 =>
      by_cases hca : canAddCol ((s.columns.set src rest).getD dst []) c0
      · simp only [columnAddCards, if_pos hca]
        have hset2 := colsM_set (s.columns.set src rest) dst
          ((s.columns.set src rest).getD dst [] ++ c0 :: cs2) hdst2
        rw [listM_append] at hset2
        have hcs2 : colsM ((s.columns.set src rest).set dst
            ((s.columns.set src rest).getD dst [] ++ c0 :: cs2)) =
            colsM (s.columns.set src rest) + ((c0 :: cs2 : List Card) : Multiset Card) := by
          have h2 : colsM ((s.columns.set src rest).set dst
              ((s.columns.set src rest).getD dst [] ++ c0 :: cs2)) +
              ((s.columns.set src rest).getD dst [] : Multiset Card) =
              (colsM (s.columns.set src rest) + ((c0 :: cs2 : List Card) : Multiset Card)) +
              ((s.columns.set src rest).getD dst [] : Multiset Card) := by
            rw [hset2]
            abel
          exact add_right_cancel h2
        rw [← hra, listM_append] at hset1
        have h4 : colsM (s.columns.set src rest) + ((c0 :: cs2 : List Card) : Multiset Card) +
            (rest : Multiset Card) = colsM s.columns + (rest : Multiset Card) := by
          calc colsM (s.columns.set src rest) + ((c0 :: cs2 : List Card) : Multiset Card) +
              (rest : Multiset Card)
              = colsM (s.columns.set src rest) +
                  ((rest : Multiset Card) + ((c0 :: cs2 : List Card) : Multiset Card)) := by abel
            _ = colsM s.columns + (rest : Multiset Card) := hset1
        have hkey1 : colsM (s.columns.set src rest) + ((c0 :: cs2 : List Card) : Multiset Card) =
            colsM s.columns := add_right_cancel h4
        have key : colsM ((s.columns.set src rest).set dst
            ((s.columns.set src rest).getD dst [] ++ c0 :: cs2)) = colsM s.columns := by
          rw [hcs2]
          exact hkey1
        have klen : ((s.columns.set src rest).set dst
            ((s.columns.set src rest).getD dst [] ++ c0 :: cs2)).length = 7 := by
          simp only [List.length_set]
          exact h7
        split
        · split
          · exact ⟨by unfold cardMultiset; dsimp only; rw [key], klen⟩
          · exact ⟨by unfold cardMultiset; dsimp only; rw [key], klen⟩
        · exact ⟨by unfold cardMultiset; dsimp only; rw [key], klen⟩
      · simp only [columnAddCards, if_neg hca]
        refine ⟨?_, by simpa using h7⟩
        unfold cardMultiset
        dsimp only
        have hrs : (s.columns.set src rest).set src (s.columns.getD src []) =
            s.columns.set src (s.columns.getD src []) := List.set_set _ _ _ _
        have hset3 := colsM_set s.columns src (s.columns.getD src []) hsrc
        have hcs3 : colsM (s.columns.set src (s.columns.getD src [])) = colsM s.columns :=
          add_right_cancel hset3
        rw [hrs, hcs3]

/-- column_to_ace_pile conserves the cards. -/
theorem columnToAcePile_multiset (s : GameState) (i : Fin 7)
    (h7 : s.columns.length = 7) :
    cardMultiset (columnToAcePile s i).1 = cardMultiset s ∧
    (columnToAcePile s i).1.columns.length = 7 := by
  have hi : (i : Nat) < s.columns.length := by rw [h7]; exact i.isLt
  unfold columnToAcePile
  dsimp only
  cases htc : columnTakeCard (s.columns.getD i []) s.faceUp with
  | error e => simp only [htc]; exact ⟨by trivial, h7⟩
  | ok res =>
    obtain ⟨card, rest, f2⟩ := res
    obtain ⟨hlast, hrest⟩ := columnTakeCard_ok_inv _ _ _ _ _ htc
    have hra : rest ++ [card] = s.columns.getD i [] := by
      rw [hrest]
      exact getLast?_decomp _ _ hlast
    have hset1 := colsM_set s.columns i rest hi
    rw [← hra, listM_append] at hset1
    have h4 : colsM (s.columns.set i rest) + (([card] : List Card) : Multiset Card) +
        (rest : Multiset Card) = colsM s.columns + (rest : Multiset Card) := by
      calc colsM (s.columns.set i rest) + (([card] : List Card) : Multiset Card) +
            (rest : Multiset Card)
          = colsM (s.columns.set i rest) +
              ((rest : Multiset Card) + (([card] : List Card) : Multiset Card)) := by abel
        _ = colsM s.columns + (rest : Multiset Card) := hset1
    have hcs : colsM (s.columns.set i rest) + (([card] : List Card) : Multiset Card) =
        colsM s.columns := add_right_cancel h4
    simp only [htc]
    by_cases hca : canAddAce (s.acePiles card.suit) card
    · rw [if_pos hca]
      have hupd := acesM_update s.acePiles card.suit (s.acePiles card.suit ++ [card])
      rw [listM_append] at hupd
      have hkey : acesM (updateSuit s.acePiles card.suit (s.acePiles card.suit ++ [card])) =
          acesM s.acePiles + (([card] : List Card) : Multiset Card) := by
        have h2 : acesM (updateSuit s.acePiles card.suit (s.acePiles card.suit ++ [card])) +
            (s.acePiles card.suit : Multiset Card) =
            (acesM s.acePiles + (([card] : List Card) : Multiset Card)) +
            (s.acePiles card.suit : Multiset Card) := by
          rw [hupd]
          abel
        exact add_right_cancel h2
      have hlen2 : (s.columns.set i rest).length = 7 := by
        rw [List.length_set]
        exact h7
      have hmain : (s.deck : Multiset Card) + (s.discard : Multiset Card) +
          acesM (updateSuit s.acePiles card.suit (s.acePiles card.suit ++ [card])) +
          colsM (s.columns.set i rest) = cardMultiset s := by
        rw [hkey]
        unfold cardMultiset
        rw [← hcs]
        abel
      split
      · split
        · exact ⟨hmain, hlen2⟩
        · exact ⟨hmain, hlen2⟩
      · exact ⟨hmain, hlen2⟩
    · rw [if_neg hca]
      refine ⟨?_, by simpa using h7⟩
      unfold cardMultiset
      dsimp only
      have hrs : (s.columns.set i rest).set i (s.columns.getD i []) =
          s.columns.set i (s.columns.getD i []) := List.set_set _ _ _ _
      have hset3 := colsM_set s.columns i (s.columns.getD i []) hi
      have hcs3 : colsM (s.columns.set i (s.columns.getD i [])) = colsM s.columns :=
        add_right_cancel hset3
      rw [hrs, hcs3]

/-- The deal's while loop only moves cards from deck to column. -/
theorem pushN_sum (k : Nat) :
    ∀ (deck col d1 col1 : List Card), pushN deck col k = some (d1, col1) →
      (d1 : Multiset Card) + (col1 : Multiset Card) =
        (deck : Multiset Card) + (col : Multiset Card) := by
  induction k with
  | zero =>
    intro deck col d1 col1 h
    simp only [pushN, Option.some.injEq, Prod.mk.injEq] at h
    rw [← h.1, ← h.2]
  | succ k2 ih =>
    intro deck col d1 col1 h
    simp only [pushN] at h
    cases htk : takeCard deck with
    | none => rw [htk] at h; cases h
    | some res =>
      obtain ⟨c, d2⟩ := res
      rw [htk] at h
      have hd : d2 ++ [c] = deck := takeCard_inv _ _ _ htk
      have := ih d2 (col ++ [c]) d1 col1 h
      rw [listM_append] at this
      calc (d1 : Multiset Card) + (col1 : Multiset Card)
          = (d2 : Multiset Card) + ((col : Multiset Card) + (([c] : List Card) : Multiset Card)) :=
            this
        _ = ((d2 : Multiset Card) + (([c] : List Card) : Multiset Card)) +
            (col : Multiset Card) := by abel
        _ = (deck : Multiset Card) + (col : Multiset Card) := by
            rw [← listM_append, hd]

/-- The deal only moves cards from the deck into the dealt columns, and
deals one column per round. -/
theorem dealFrom_sum (n : Nat) :
    ∀ (deck : List Card) (f : Card → Bool) (i : Nat) (d2 : List Card)
      (cols : List (List Card)) (f2 : Card → Bool),
      dealFrom deck f i n = some (d2, cols, f2) →
      (d2 : Multiset Card) + colsM cols = (deck : Multiset Card) ∧ cols.length = n := by
  induction n with
  | zero =>
    intro deck f i d2 cols f2 h
    simp only [dealFrom, Option.some.injEq, Prod.mk.injEq] at h
    rw [← h.1, ← h.2.1]
    exact ⟨by rw [colsM_nil, add_zero], rfl⟩
  | succ n2 ih =>
    intro deck f i d2 cols f2 h
    simp only [dealFrom] at h
    cases hp : pushN deck [] i with
    | none => rw [hp] at h; cases h
    | some res1 =>
      obtain ⟨d1, col1⟩ := res1
      rw [hp] at h
      dsimp only at h
      cases htk : takeCard d1 with
      | none => rw [htk] at h; cases h
      | some res2 =>
        obtain ⟨c, dd⟩ := res2
        rw [htk] at h
        dsimp only at h
        cases hdf : dealFrom dd (flipCard f c) (i + 1) n2 with
        | none => rw [hdf] at h; cases h
        | some res3 =>
          obtain ⟨d3, cols2, f3⟩ := res3
          rw [hdf] at h
          dsimp only at h
          simp only [Option.some.injEq, Prod.mk.injEq] at h
          obtain ⟨hh1, hh2, hh3⟩ := h
          have hps := pushN_sum i deck [] d1 col1 hp
          rw [coe_nil_M, add_zero] at hps
          have htc : dd ++ [c] = d1 := takeCard_inv _ _ _ htk
          have hind := ih dd (flipCard f c) (i + 1) d3 cols2 f3 hdf
          refine ⟨?_, ?_⟩
          · rw [← hh1, ← hh2, colsM_cons, listM_append]
            calc (d3 : Multiset Card) + ((col1 : Multiset Card) +
                  (([c] : List Card) : Multiset Card) + colsM cols2)
                = ((d3 : Multiset Card) + colsM cols2) + (([c] : List Card) : Multiset Card) +
                  (col1 : Multiset Card) := by abel
              _ = (dd : Multiset Card) + (([c] : List Card) : Multiset Card) +
                  (col1 : Multiset Card) := by rw [hind.1]
              _ = (d1 : Multiset Card) + (col1 : Multiset Card) := by
                  rw [← listM_append, htc]
              _ = (deck : Multiset Card) := hps
          · rw [← hh2]
            simp [hind.2]

/-- reset_game holds exactly the cards of the shuffled deck it was given,
split between the remaining deck and the seven columns. -/
theorem resetGame_multiset (draw : Nat) (d : List Card) (s0 : GameState)
    (h : resetGame draw d = some s0) :
    cardMultiset s0 = (d : Multiset Card) ∧ s0.columns.length = 7 := by
  unfold resetGame at h
  split at h
  · cases hdf : dealFrom d (fun _ => false) 0 7 with
    | none => rw [hdf] at h; cases h
    | some res =>
      obtain ⟨d3, cols, f3⟩ := res
      rw [hdf] at h
      simp only [Option.some.injEq] at h
      have hsum := dealFrom_sum 7 d (fun _ => false) 0 d3 cols f3 hdf
      rw [← h]
      unfold cardMultiset
      dsimp only
      refine ⟨?_, hsum.2⟩
      rw [coe_nil_M]
      have : acesM (fun _ => ([] : List Card)) = 0 := rfl
      rw [this, add_zero, add_zero, hsum.1]
  · cases h

/-- One engine call conserves the card multiset and the column count. -/
theorem step_multiset (s : GameState) (op : Op) (h7 : s.columns.length = 7) :
    cardMultiset (step s op).1 = cardMultiset s ∧
    (step s op).1.columns.length = 7 := by
  cases op with
  | drawFromPile =>
    have hd := drawFromPile_multiset s
    exact ⟨hd.1, by rw [show (step s .drawFromPile).1.columns = s.columns from hd.2]; exact h7⟩
  | discardToColumn i => exact discardToColumn_multiset s i h7
  | discardToAcePile => exact discardToAcePile_multiset s h7
  | columnToColumn a b n => exact columnToColumn_multiset s a b n h7
  | columnToAcePile i => exact columnToAcePile_multiset s i h7

/-- Any sequence of engine calls conserves the card multiset. -/
theorem run_multiset (ops : List Op) :
    ∀ s : GameState, s.columns.length = 7 →
      cardMultiset (run s ops) = cardMultiset s ∧
      (run s ops).columns.length = 7 := by
  induction ops with
  | nil => intro s h7; exact ⟨rfl, h7⟩
  | cons op rest ih =>
    intro s h7
    have hs := step_multiset s op h7
    have hr := ih (step s op).1 hs.2
    exact ⟨by rw [show run s (op :: rest) = run (step s op).1 rest from rfl, hr.1, hs.1], hr.2⟩

-- ----- C2 -----

/-- C2: from resetGame, after any sequence of engine calls (successful or
raising an error), the cards across deck, discard, the four ace piles and
the seven columns form exactly the multiset of the 52 distinct
(value, suit) pairs: none lost, none duplicated, none in two piles. -/
theorem c2_card_conservation (s : GameState) (h : Reachable s) :
    cardMultiset s = (fullDeck : Multiset Card) ∧
    (cardMultiset s).Nodup ∧
    Multiset.card (cardMultiset s) = 52 := by
  obtain ⟨draw, d, s0, ops, hdr, hperm, hreset, hrun⟩ := h
  have h0 := resetGame_multiset draw d s0 hreset
  have hr := run_multiset ops s0 h0.2
  have heq : cardMultiset s = (fullDeck : Multiset Card) := by
    rw [hrun, hr.1, h0.1]
    exact Multiset.coe_eq_coe.mpr hperm
  refine ⟨heq, ?_, ?_⟩
  · rw [heq]
    exact Multiset.coe_nodup.mpr (by decide)
  · rw [heq, Multiset.coe_card]
    rfl

/-- Witness for c2_card_conservation at the game dealt from the full
deck with no further calls. -/
theorem c2_card_conservation_witness :
    cardMultiset s0full = (fullDeck : Multiset Card) :=
  (c2_card_conservation s0full
    ⟨1, fullDeck, s0full, [], Or.inl rfl, List.Perm.refl _,
      isSome_eq_some_getD _ _ (by decide), rfl⟩).1

-- ----- orientation facts about the pile operations -----

/-- take_cards leaves the remaining column's new top face up, and touches
no other card's orientation. -/
theorem columnTakeCards_faceUp (col : List Card) (f : Card → Bool) (n : Nat)
    (a b : List Card) (g : Card → Bool)
    (h : columnTakeCards col f n = .ok (a, b, g)) :
    (∀ t, b.getLast? = some t → g t = true) ∧
    (∀ x, (∀ t, b.getLast? = some t → x ≠ t) → g x = f x) := by
  have hb : b = pySliceTo col n := (columnTakeCards_ok_inv _ _ _ _ _ _ h).2.2
  unfold columnTakeCards at h
  split at h
  · cases h
  · dsimp only at h
    split at h
    next t ht =>
      split at h
      next hf =>
        simp only [Except.ok.injEq, Prod.mk.injEq] at h
        rw [← h.2.2]
        constructor
        · intro t2 ht2
          rw [hb] at ht2
          rw [ht] at ht2
          cases ht2
          rw [flipCard_self]
          simp only [Bool.not_eq_true'] at hf
          rw [hf]
          rfl
        · intro x hx
          have hxt : x ≠ t := hx t (by rw [hb, ht])
          exact flipCard_ne _ _ _ hxt
      next hf =>
        simp only [Except.ok.injEq, Prod.mk.injEq] at h
        rw [← h.2.2]
        refine ⟨?_, fun x _ => rfl⟩
        intro t2 ht2
        rw [hb, ht] at ht2
        cases ht2
        simp only [Bool.not_eq_true', Bool.not_eq_false] at hf
        exact hf
    next ht =>
      simp only [Except.ok.injEq, Prod.mk.injEq] at h
      rw [← h.2.2]
      refine ⟨?_, fun x _ => rfl⟩
      intro t2 ht2
      rw [hb, ht] at ht2
      cases ht2

/-- take_card leaves the remaining column's new top face up, and touches
no other card's orientation. -/
theorem columnTakeCard_faceUp (col : List Card) (f : Card → Bool)
    (c : Card) (b : List Card) (g : Card → Bool)
    (h : columnTakeCard col f = .ok (c, b, g)) :
    (∀ t, b.getLast? = some t → g t = true) ∧
    (∀ x, (∀ t, b.getLast? = some t → x ≠ t) → g x = f x) := by
  have hb : b = col.dropLast := (columnTakeCard_ok_inv _ _ _ _ _ h).2
  unfold columnTakeCard at h
  split at h
  · cases h
  next c2 hg =>
    dsimp only at h
    split at h
    next t ht =>
      split at h
      next hf =>
        simp only [Except.ok.injEq, Prod.mk.injEq] at h
        rw [← h.2.2]
        constructor
        · intro t2 ht2
          rw [hb, ht] at ht2
          cases ht2
          rw [flipCard_self]
          simp only [Bool.not_eq_true'] at hf
          rw [hf]
          rfl
        · intro x hx
          have hxt : x ≠ t := hx t (by rw [hb, ht])
          exact flipCard_ne _ _ _ hxt
      next hf =>
        simp only [Except.ok.injEq, Prod.mk.injEq] at h
        rw [← h.2.2]
        refine ⟨?_, fun x _ => rfl⟩
        intro t2 ht2
        rw [hb, ht] at ht2
        cases ht2
        simp only [Bool.not_eq_true', Bool.not_eq_false] at hf
        exact hf
    next ht =>
      simp only [Except.ok.injEq, Prod.mk.injEq] at h
      rw [← h.2.2]
      refine ⟨?_, fun x _ => rfl⟩
      intro t2 ht2
      rw [hb, ht] at ht2
      cases ht2

/-- The orientation maps produced by the take operations only turn cards
face up, never face down. -/
theorem upgradeOnly_of_parts (f g : Card → Bool) (b : List Card)
    (h1 : ∀ t, b.getLast? = some t → g t = true)
    (h2 : ∀ x, (∀ t, b.getLast? = some t → x ≠ t) → g x = f x) :
    ∀ x, g x = f x ∨ g x = true := by
  intro x
  cases hbl : b.getLast? with
  | none =>
    left
    exact h2 x (fun t ht => by rw [hbl] at ht; cases ht)
  | some t =>
    by_cases hxt : x = t
    · right
      rw [hxt]
      exact h1 t hbl
    · left
      exact h2 x (fun t2 ht2 => by rw [hbl] at ht2; cases ht2; exact hxt)

-- ----- membership and disjointness from card conservation -----

theorem mem_colsM (x : Card) (l : List (List Card)) :
    x ∈ colsM l ↔ ∃ col ∈ l, x ∈ col := by
  induction l with
  | nil => simp [colsM]
  | cons a t ih =>
    rw [colsM_cons]
    simp only [Multiset.mem_add, Multiset.mem_coe, ih, List.mem_cons]
    constructor
    · rintro (hx | ⟨col, hc, hx⟩)
      · exact ⟨a, Or.inl rfl, hx⟩
      · exact ⟨col, Or.inr hc, hx⟩
    · rintro ⟨col, hc | hc, hx⟩
      · left
        rw [← hc]
        exact hx
      · right
        exact ⟨col, hc, hx⟩

/-- The game-wide invariant: the 52-card conservation, seven columns, a
face-down deck, a face-up discard pile, and a face-up top on every
non-empty column. -/
def EngineInv (s : GameState) : Prop :=
  cardMultiset s = (fullDeck : Multiset Card) ∧
  s.columns.length = 7 ∧
  (∀ c ∈ s.deck, s.faceUp c = false) ∧
  (∀ c ∈ s.discard, s.faceUp c = true) ∧
  (∀ col ∈ s.columns, ∀ t, col.getLast? = some t → s.faceUp t = true)

/-- Distinctness and disjointness facts that follow from the card
conservation. -/
theorem inv_disjoint (s : GameState)
    (h : cardMultiset s = (fullDeck : Multiset Card)) :
    s.deck.Nodup ∧ s.discard.Nodup ∧
    (∀ x, (∃ col ∈ s.columns, x ∈ col) → x ∉ s.deck ∧ x ∉ s.discard) ∧
    (∀ x ∈ s.deck, x ∉ s.discard) := by
  have hnd : (cardMultiset s).Nodup := by
    rw [h]
    exact Multiset.coe_nodup.mpr (by decide)
  unfold cardMultiset at hnd
  rw [Multiset.nodup_add] at hnd
  obtain ⟨hl, hcols, hdisj⟩ := hnd
  rw [Multiset.nodup_add] at hl
  obtain ⟨hl2, haces, hdisj2⟩ := hl
  rw [Multiset.nodup_add] at hl2
  obtain ⟨hdeck, hdiscard, hdisj3⟩ := hl2
  refine ⟨Multiset.coe_nodup.mp hdeck, Multiset.coe_nodup.mp hdiscard, ?_, ?_⟩
  case refine_2 =>
    intro x hxd hxdc
    exact Multiset.disjoint_left.mp hdisj3 (Multiset.mem_coe.mpr hxd) (Multiset.mem_coe.mpr hxdc)
  intro x hx
  have hxc : x ∈ colsM s.columns := (mem_colsM x s.columns).mpr hx
  have hxl : x ∉ (s.deck : Multiset Card) + (s.discard : Multiset Card) + acesM s.acePiles := by
    intro hmem
    exact Multiset.disjoint_left.mp hdisj hmem hxc
  constructor
  · intro hd
    exact hxl (by rw [Multiset.mem_add, Multiset.mem_add]; exact Or.inl (Or.inl (Multiset.mem_coe.mpr hd)))
  · intro hd
    exact hxl (by rw [Multiset.mem_add, Multiset.mem_add]; exact Or.inl (Or.inr (Multiset.mem_coe.mpr hd)))

theorem getD_mem {α : Type} (l : List α) (d : α) (i : Nat) (h : i < l.length) :
    l.getD i d ∈ l := by
  rw [List.getD_eq_getElem l d h]
  exact List.getElem_mem h

/-- draw_from_pile on a non-empty deck: the deck splits into a kept
prefix and a popped suffix; the suffix, reversed into pop order, is
appended to the discard pile with every card flipped. -/
theorem drawFromPile_char (s : GameState) (h1 : s.deck ≠ []) :
    ∃ U D : List Card, s.deck = D ++ U.reverse ∧
      drawFromPile s =
        { s with deck := D, discard := s.discard ++ U, faceUp := flipAll s.faceUp U } := by
  rcases le_or_lt s.draw s.deck.length with hk | hk
  · refine ⟨(s.deck.drop (s.deck.length - s.draw)).reverse,
      s.deck.take (s.deck.length - s.draw), by simp, ?_⟩
    have hUlen : ((s.deck.drop (s.deck.length - s.draw)).reverse).length = s.draw := by
      simp [List.length_drop]
      omega
    have hloop := drawLoop_spec_le ((s.deck.drop (s.deck.length - s.draw)).reverse)
      (s.deck.take (s.deck.length - s.draw)) [] s.faceUp
    rw [hUlen] at hloop
    rw [drawFromPile, if_neg h1]
    have hsplit : s.deck =
        s.deck.take (s.deck.length - s.draw) ++
          ((s.deck.drop (s.deck.length - s.draw)).reverse).reverse := by
      simp
    conv_lhs => rw [hsplit]
    rw [hloop]
    simp
  · refine ⟨s.deck.reverse, [], by simp, ?_⟩
    have hloop := drawLoop_all s.deck.reverse s.draw [] s.faceUp
      (by rw [List.length_reverse]; exact Nat.le_of_lt hk)
    rw [List.reverse_reverse] at hloop
    rw [drawFromPile, if_neg h1, hloop]
    simp

/-- Tops stay face up under a map change that only turns cards up. -/
theorem topsUp_upgrade (cols : List (List Card)) (f g : Card → Bool)
    (hup : ∀ x, g x = f x ∨ g x = true)
    (h : ∀ col ∈ cols, ∀ t, col.getLast? = some t → f t = true) :
    ∀ col ∈ cols, ∀ t, col.getLast? = some t → g t = true := by
  intro col hc t ht
  rcases hup t with he | he
  · rw [he]
    exact h col hc t ht
  · exact he

/-- A face-up list stays face up under a map change that only turns
cards up. -/
theorem allUp_upgrade (l : List Card) (f g : Card → Bool)
    (hup : ∀ x, g x = f x ∨ g x = true)
    (h : ∀ c ∈ l, f c = true) : ∀ c ∈ l, g c = true := by
  intro c hc
  rcases hup c with he | he
  · rw [he]
    exact h c hc
  · exact he

/-- draw_from_pile preserves the invariant. -/
theorem drawFromPile_inv (s : GameState) (h : EngineInv s) :
    EngineInv (drawFromPile s) := by
  obtain ⟨hM, h7, hdk, hdc, htop⟩ := h
  obtain ⟨hdnd, hdcnd, hcoldis, hddis⟩ := inv_disjoint s hM
  have hm := drawFromPile_multiset s
  refine ⟨hm.1.trans hM, by rw [hm.2]; exact h7, ?_, ?_, ?_⟩ <;>
    by_cases hd : s.deck = []
  case pos =>
    rw [drawFromPile, if_pos hd]
    intro c hc
    dsimp only at hc
    rw [hd] at hc
    simp only [List.nil_append, List.mem_reverse] at hc
    show flipAll s.faceUp s.discard c = false
    rw [flipAll_mem _ _ _ hdcnd hc, hdc c hc]
    rfl
  case neg =>
    obtain ⟨U, D, hsplit, hchar⟩ := drawFromPile_char s hd
    have hund : U.Nodup := by
      have := hsplit ▸ hdnd
      have h2 := (List.nodup_append.mp this).2.1
      exact List.nodup_reverse.mp h2
    have hdisjDU : ∀ x ∈ D, x ∉ U := by
      intro x hx hxu
      have := hsplit ▸ hdnd
      exact (List.nodup_append.mp this).2.2 hx (List.mem_reverse.mpr hxu)
    intro c hc
    rw [hchar] at hc
    dsimp only at hc
    rw [hchar]
    show flipAll s.faceUp U c = false
    rw [flipAll_not_mem _ _ _ (hdisjDU c hc)]
    exact hdk c (by rw [hsplit]; exact List.mem_append_left _ hc)
  case pos =>
    rw [drawFromPile, if_pos hd]
    intro c hc
    simp at hc
  case neg =>
    obtain ⟨U, D, hsplit, hchar⟩ := drawFromPile_char s hd
    have hund : U.Nodup := by
      have := hsplit ▸ hdnd
      exact List.nodup_reverse.mp (List.nodup_append.mp this).2.1
    have hUdeck : ∀ x ∈ U, x ∈ s.deck := by
      intro x hx
      rw [hsplit]
      exact List.mem_append_right _ (List.mem_reverse.mpr hx)
    intro c hc
    rw [hchar] at hc
    dsimp only at hc
    rw [hchar]
    show flipAll s.faceUp U c = true
    rcases List.mem_append.mp hc with hcd | hcu
    · rw [flipAll_not_mem _ _ _ (fun hcu => hddis c (hUdeck c hcu) hcd)]
      exact hdc c hcd
    · rw [flipAll_mem _ _ _ hund hcu, hdk c (hUdeck c hcu)]
      rfl
  case pos =>
    rw [drawFromPile, if_pos hd]
    intro col hc t ht
    dsimp only at hc
    show flipAll s.faceUp s.discard t = true
    have htmem : t ∈ col := List.mem_of_mem_getLast? ht
    have hnot : t ∉ s.discard := (hcoldis t ⟨col, hc, htmem⟩).2
    rw [flipAll_not_mem _ _ _ hnot]
    exact htop col hc t ht
  case neg =>
    obtain ⟨U, D, hsplit, hchar⟩ := drawFromPile_char s hd
    have hUdeck : ∀ x ∈ U, x ∈ s.deck := by
      intro x hx
      rw [hsplit]
      exact List.mem_append_right _ (List.mem_reverse.mpr hx)
    intro col hc t ht
    rw [hchar] at hc
    dsimp only at hc
    rw [hchar]
    show flipAll s.faceUp U t = true
    have htmem : t ∈ col := List.mem_of_mem_getLast? ht
    have hnot : t ∉ U := fun hu => (hcoldis t ⟨col, hc, htmem⟩).1 (hUdeck t hu)
    rw [flipAll_not_mem _ _ _ hnot]
    exact htop col hc t ht

/-- discard_to_column preserves the invariant. -/
theorem discardToColumn_inv (s : GameState) (i : Fin 7) (h : EngineInv s) :
    EngineInv (discardToColumn s i).1 := by
  obtain ⟨hM, h7, hdk, hdc, htop⟩ := h
  have hm := discardToColumn_multiset s i h7
  refine ⟨hm.1.trans hM, hm.2, ?_⟩
  unfold discardToColumn
  cases hg : s.discard.getLast? with
  | none => exact ⟨hdk, hdc, htop⟩
  | some card =>
    have hdd := getLast?_decomp _ _ hg
    have hcardmem : card ∈ s.discard := List.mem_of_mem_getLast? hg
    dsimp only
    by_cases hca : canAddCol (s.columns.getD i []) card
    · rw [if_pos hca]
      refine ⟨hdk, ?_, ?_⟩
      · intro c hc
        exact hdc c ((List.dropLast_sublist (l := s.discard)).subset hc)
      · intro col hcol t ht
        rcases List.mem_or_eq_of_mem_set hcol with hold | hnew
        · exact htop col hold t ht
        · rw [hnew, List.getLast?_concat] at ht
          cases ht
          exact hdc _ hcardmem
    · rw [if_neg hca]
      refine ⟨hdk, ?_, htop⟩
      intro c hc
      rw [hdd] at hc
      exact hdc c hc

/-- discard_to_ace_pile preserves the invariant. -/
theorem discardToAcePile_inv (s : GameState) (h : EngineInv s) :
    EngineInv (discardToAcePile s).1 := by
  obtain ⟨hM, h7, hdk, hdc, htop⟩ := h
  have hm := discardToAcePile_multiset s h7
  refine ⟨hm.1.trans hM, hm.2, ?_⟩
  unfold discardToAcePile
  cases hg : s.discard.getLast? with
  | none => exact ⟨hdk, hdc, htop⟩
  | some card =>
    have hdd := getLast?_decomp _ _ hg
    dsimp only
    by_cases hca : canAddAce (s.acePiles card.suit) card
    · rw [if_pos hca]
      refine ⟨hdk, ?_, htop⟩
      intro c hc
      exact hdc c ((List.dropLast_sublist (l := s.discard)).subset hc)
    · rw [if_neg hca]
      refine ⟨hdk, ?_, htop⟩
      intro c hc
      rw [hdd] at hc
      exact hdc c hc

/-- column_to_column preserves the invariant. -/
theorem columnToColumn_inv (s : GameState) (src dst : Fin 7) (n : Nat)
    (h : EngineInv s) : EngineInv (columnToColumn s src dst n).1 := by
  obtain ⟨hM, h7, hdk, hdc, htop⟩ := h
  obtain ⟨hdnd, hdcnd, hcoldis, hddis⟩ := inv_disjoint s hM
  have hm := columnToColumn_multiset s src dst n h7
  refine ⟨hm.1.trans hM, hm.2, ?_⟩
  have hsrc : (src : Nat) < s.columns.length := by rw [h7]; exact src.isLt
  unfold columnToColumn
  dsimp only
  cases htc : columnTakeCards (s.columns.getD src []) s.faceUp n with
  | error e => simp only [htc]; exact ⟨hdk, hdc, htop⟩
  | ok res =>
    obtain ⟨cards, rest, f2⟩ := res
    obtain ⟨hn2, hcards, hrest⟩ := columnTakeCards_ok_inv _ _ _ _ _ _ htc
    obtain ⟨hfu1, hfu2⟩ := columnTakeCards_faceUp _ _ _ _ _ _ htc
    have hup : ∀ x, f2 x = s.faceUp x ∨ f2 x = true :=
      upgradeOnly_of_parts _ _ _ hfu1 hfu2
    have hra : rest ++ cards = s.columns.getD src [] := by
      rw [hcards, hrest]
      exact pySlice_append _ _
    have hsnapmem : s.columns.getD src [] ∈ s.columns := getD_mem _ _ _ hsrc
    have hsrcdis : ∀ x, x ∈ s.columns.getD src [] → x ∉ s.deck ∧ x ∉ s.discard :=
      fun x hx => hcoldis x ⟨_, hsnapmem, hx⟩
    have hdk2 : ∀ c ∈ s.deck, f2 c = false := by
      intro c hc
      rw [hfu2 c ?_]
      · exact hdk c hc
      · intro t ht hxt
        have htm : t ∈ s.columns.getD src [] := by
          rw [← hra]
          exact List.mem_append_left _ (List.mem_of_mem_getLast? ht)
        rw [hxt] at hc
        exact (hsrcdis t htm).1 hc
    have hdc2 : ∀ c ∈ s.discard, f2 c = true := allUp_upgrade _ _ _ hup hdc
    simp only [htc]
    cases cards with
    | nil =>
      simp only [columnAddCards]
      refine ⟨hdk2, hdc2, ?_⟩
      intro col hcol t ht
      rcases List.mem_or_eq_of_mem_set hcol with hold | hnew
      · exact topsUp_upgrade s.columns s.faceUp f2 hup htop col hold t ht
      · rw [hnew] at ht
        exact hfu1 t ht
    | cons c0 cs2 =>
      have hcne : (c0 :: cs2 : List Card) ≠ [] := by simp
      by_cases hca : canAddCol ((s.columns.set src rest).getD dst []) c0
      · simp only [columnAddCards, if_pos hca]
        have hsnaptop : (s.columns.getD src []).getLast? =
            (c0 :: cs2 : List Card).getLast? := by
          rw [← hra]
          exact List.getLast?_append_of_ne_nil _ hcne
        have htop2 : ∀ col ∈ (s.columns.set src rest).set dst
            ((s.columns.set src rest).getD dst [] ++ c0 :: cs2),
            ∀ t, col.getLast? = some t → f2 t = true := by
          intro col hcol t ht
          rcases List.mem_or_eq_of_mem_set hcol with hcol1 | hnew
          · rcases List.mem_or_eq_of_mem_set hcol1 with hold | hrest2
            · exact topsUp_upgrade s.columns s.faceUp f2 hup htop col hold t ht
            · rw [hrest2] at ht
              exact hfu1 t ht
          · rw [hnew, List.getLast?_append_of_ne_nil _ hcne] at ht
            have hst : (s.columns.getD src []).getLast? = some t := by
              rw [hsnaptop]
              exact ht
            have := htop _ hsnapmem t hst
            rcases hup t with he | he
            · rw [he]
              exact this
            · exact he
        split
        next t ht =>
          have hmem2 : ((s.columns.set src rest).set dst
              ((s.columns.set src rest).getD dst [] ++ c0 :: cs2)).getD src [] ∈
              ((s.columns.set src rest).set dst
                ((s.columns.set src rest).getD dst [] ++ c0 :: cs2)) := by
            refine getD_mem _ _ _ ?_
            rw [List.length_set, List.length_set, h7]
            exact src.isLt
          have hft : f2 t = true := htop2 _ hmem2 t ht
          rw [hft]
          simp only [Bool.not_true]
          exact ⟨hdk2, hdc2, htop2⟩
        next => exact ⟨hdk2, hdc2, htop2⟩
      · simp only [columnAddCards, if_neg hca]
        refine ⟨hdk2, hdc2, ?_⟩
        intro col hcol t ht
        rcases List.mem_or_eq_of_mem_set hcol with hcol1 | hsnap2
        · rcases List.mem_or_eq_of_mem_set hcol1 with hold | hrest2
          · exact topsUp_upgrade s.columns s.faceUp f2 hup htop col hold t ht
          · rw [hrest2] at ht
            exact hfu1 t ht
        · rw [hsnap2] at ht
          have := htop _ hsnapmem t ht
          rcases hup t with he | he
          · rw [he]
            exact this
          · exact he

/-- column_to_ace_pile preserves the invariant. -/
theorem columnToAcePile_inv (s : GameState) (i : Fin 7)
    (h : EngineInv s) : EngineInv (columnToAcePile s i).1 := by
  obtain ⟨hM, h7, hdk, hdc, htop⟩ := h
  obtain ⟨hdnd, hdcnd, hcoldis, hddis⟩ := inv_disjoint s hM
  have hm := columnToAcePile_multiset s i h7
  refine ⟨hm.1.trans hM, hm.2, ?_⟩
  have hi : (i : Nat) < s.columns.length := by rw [h7]; exact i.isLt
  unfold columnToAcePile
  dsimp only
  cases htc : columnTakeCard (s.columns.getD i []) s.faceUp with
  | error e => simp only [htc]; exact ⟨hdk, hdc, htop⟩
  | ok res =>
    obtain ⟨card, rest, f2⟩ := res
    obtain ⟨hlast, hrest⟩ := columnTakeCard_ok_inv _ _ _ _ _ htc
    obtain ⟨hfu1, hfu2⟩ := columnTakeCard_faceUp _ _ _ _ _ htc
    have hup : ∀ x, f2 x = s.faceUp x ∨ f2 x = true :=
      upgradeOnly_of_parts _ _ _ hfu1 hfu2
    have hsnapmem : s.columns.getD i [] ∈ s.columns := getD_mem _ _ _ hi
    have hsrcdis : ∀ x, x ∈ s.columns.getD i [] → x ∉ s.deck ∧ x ∉ s.discard :=
      fun x hx => hcoldis x ⟨_, hsnapmem, hx⟩
    have hdk2 : ∀ c ∈ s.deck, f2 c = false := by
      intro c hc
      rw [hfu2 c ?_]
      · exact hdk c hc
      · intro t ht hxt
        have htm : t ∈ s.columns.getD i [] := by
          rw [hrest] at ht
          exact (List.dropLast_sublist (l := s.columns.getD i [])).subset
            (List.mem_of_mem_getLast? ht)
        rw [hxt] at hc
        exact (hsrcdis t htm).1 hc
    have hdc2 : ∀ c ∈ s.discard, f2 c = true := allUp_upgrade _ _ _ hup hdc
    simp only [htc]
    by_cases hca : canAddAce (s.acePiles card.suit) card
    · rw [if_pos hca]
      have htop2 : ∀ col ∈ s.columns.set i rest,
          ∀ t, col.getLast? = some t → f2 t = true := by
        intro col hcol t ht
        rcases List.mem_or_eq_of_mem_set hcol with hold | hnew
        · exact topsUp_upgrade s.columns s.faceUp f2 hup htop col hold t ht
        · rw [hnew] at ht
          exact hfu1 t ht
      split
      next t ht =>
        have hmem2 : (s.columns.set i rest).getD i [] ∈ s.columns.set i rest := by
          refine getD_mem _ _ _ ?_
          rw [List.length_set, h7]
          exact i.isLt
        have hft : f2 t = true := htop2 _ hmem2 t ht
        rw [hft]
        simp only [Bool.not_true]
        exact ⟨hdk2, hdc2, htop2⟩
      next => exact ⟨hdk2, hdc2, htop2⟩
    · rw [if_neg hca]
      refine ⟨hdk2, hdc2, ?_⟩
      intro col hcol t ht
      rcases List.mem_or_eq_of_mem_set hcol with hcol1 | hsnap2
      · rcases List.mem_or_eq_of_mem_set hcol1 with hold | hrest2
        · exact topsUp_upgrade s.columns s.faceUp f2 hup htop col hold t ht
        · rw [hrest2] at ht
          exact hfu1 t ht
      · rw [hsnap2] at ht
        have := htop _ hsnapmem t ht
        show f2 t = true
        rcases hup t with he | he
        · rw [he]
          exact this
        · exact he

/-- Every engine call preserves the invariant. -/
theorem step_inv (s : GameState) (op : Op) (h : EngineInv s) :
    EngineInv (step s op).1 := by
  cases op with
  | drawFromPile => exact drawFromPile_inv s h
  | discardToColumn i => exact discardToColumn_inv s i h
  | discardToAcePile => exact discardToAcePile_inv s h
  | columnToColumn a b n => exact columnToColumn_inv s a b n h
  | columnToAcePile i => exact columnToAcePile_inv s i h

/-- Any sequence of engine calls preserves the invariant. -/
theorem run_inv (ops : List Op) :
    ∀ s : GameState, EngineInv s → EngineInv (run s ops) := by
  induction ops with
  | nil => intro s h; exact h
  | cons op rest ih => intro s h; exact ih (step s op).1 (step_inv s op h)

-- ----- characterizing the deal -----

theorem takeCard_concat (l : List Card) (c : Card) :
    takeCard (l ++ [c]) = some (c, l) := by
  simp [takeCard, List.getLast?_concat, List.dropLast_concat]

/-- Popping k cards off a deck whose top k cards are the reverse of
taken appends taken, in pop order, to the column. -/
theorem pushN_spec (taken : List Card) :
    ∀ (d col : List Card),
      pushN (d ++ taken.reverse) col taken.length = some (d, col ++ taken) := by
  induction taken with
  | nil => intro d col; simp [pushN]
  | cons c t ih =>
    intro d col
    have h1 : d ++ (c :: t).reverse = (d ++ t.reverse) ++ [c] := by simp
    rw [h1]
    show pushN ((d ++ t.reverse) ++ [c]) col (t.length + 1) = _
    rw [pushN, takeCard_concat]
    dsimp only
    rw [ih d (col ++ [c])]
    simp

/-- One round of the deal: column i takes the chunk c :: t from the deck
top (t reversed below, c flipped on top). -/
theorem dealFrom_step (A : List Card) (c : Card) (t : List Card)
    (f : Card → Bool) (i n : Nat) (d3 : List Card) (cols : List (List Card))
    (f3 : Card → Bool) (ht : t.length = i)
    (hrec : dealFrom A (flipCard f c) (i + 1) n = some (d3, cols, f3)) :
    dealFrom (A ++ c :: t) f i (n + 1) = some (d3, (c :: t).reverse :: cols, f3) := by
  have h1 : A ++ c :: t = ((A ++ [c]) ++ t.reverse.reverse) := by simp
  have hp : pushN (A ++ c :: t) [] i = some (A ++ [c], t.reverse) := by
    rw [h1, ← ht, ← List.length_reverse t]
    have := pushN_spec t.reverse (A ++ [c]) []
    rw [this]
    simp
  rw [dealFrom, hp]
  dsimp only
  rw [takeCard_concat]
  dsimp only
  rw [hrec]
  simp

/-- The deal of reset_game on a deck presented as the 24 kept cards
followed by the seven column chunks: column i receives its chunk
reversed, and the seven chunk heads are flipped, in column order. -/
theorem dealFrom_spec7 (A t1 t2 t3 t4 t5 t6 : List Card)
    (c0 c1 c2 c3 c4 c5 c6 : Card) (f : Card → Bool)
    (h1 : t1.length = 1) (h2 : t2.length = 2) (h3 : t3.length = 3)
    (h4 : t4.length = 4) (h5 : t5.length = 5) (h6 : t6.length = 6) :
    dealFrom (A ++ c6 :: t6 ++ c5 :: t5 ++ c4 :: t4 ++ c3 :: t3 ++ c2 :: t2 ++
        c1 :: t1 ++ [c0]) f 0 7 =
      some (A,
        [[c0], (c1 :: t1).reverse, (c2 :: t2).reverse, (c3 :: t3).reverse,
          (c4 :: t4).reverse, (c5 :: t5).reverse, (c6 :: t6).reverse],
        flipAll f [c0, c1, c2, c3, c4, c5, c6]) := by
  have e7 : dealFrom A (flipAll f [c0, c1, c2, c3, c4, c5, c6]) 7 0 =
      some (A, [], flipAll f [c0, c1, c2, c3, c4, c5, c6]) := rfl
  have e6 := dealFrom_step A c6 t6
    (flipAll f [c0, c1, c2, c3, c4, c5]) 6 0 A [] _ h6 e7
  have e5 := dealFrom_step (A ++ c6 :: t6) c5 t5
    (flipAll f [c0, c1, c2, c3, c4]) 5 1 A _ _ h5 e6
  have e4 := dealFrom_step (A ++ c6 :: t6 ++ c5 :: t5) c4 t4
    (flipAll f [c0, c1, c2, c3]) 4 2 A _ _ h4 e5
  have e3 := dealFrom_step (A ++ c6 :: t6 ++ c5 :: t5 ++ c4 :: t4) c3 t3
    (flipAll f [c0, c1, c2]) 3 3 A _ _ h3 e4
  have e2 := dealFrom_step (A ++ c6 :: t6 ++ c5 :: t5 ++ c4 :: t4 ++ c3 :: t3) c2 t2
    (flipAll f [c0, c1]) 2 4 A _ _ h2 e3
  have e1 := dealFrom_step
    (A ++ c6 :: t6 ++ c5 :: t5 ++ c4 :: t4 ++ c3 :: t3 ++ c2 :: t2) c1 t1
    (flipAll f [c0]) 1 5 A _ _ h1 e2
  have e0 := dealFrom_step
    (A ++ c6 :: t6 ++ c5 :: t5 ++ c4 :: t4 ++ c3 :: t3 ++ c2 :: t2 ++ c1 :: t1) c0 []
    f 0 6 A _ _ rfl e1
  rw [show (A ++ c6 :: t6 ++ c5 :: t5 ++ c4 :: t4 ++ c3 :: t3 ++ c2 :: t2 ++
      c1 :: t1 ++ [c0]) =
    (A ++ c6 :: t6 ++ c5 :: t5 ++ c4 :: t4 ++ c3 :: t3 ++ c2 :: t2 ++
      c1 :: t1) ++ (c0 :: []) from rfl]
  rw [e0]
  rfl

/-- reset_game on a deck presented as 24 kept cards and seven chunks. -/
theorem resetGame_spec (draw : Nat) (hdraw : draw = 1 ∨ draw = 3)
    (A t1 t2 t3 t4 t5 t6 : List Card) (c0 c1 c2 c3 c4 c5 c6 : Card)
    (h1 : t1.length = 1) (h2 : t2.length = 2) (h3 : t3.length = 3)
    (h4 : t4.length = 4) (h5 : t5.length = 5) (h6 : t6.length = 6) :
    resetGame draw (A ++ c6 :: t6 ++ c5 :: t5 ++ c4 :: t4 ++ c3 :: t3 ++
        c2 :: t2 ++ c1 :: t1 ++ [c0]) =
      some { draw := draw, deck := A, discard := [], acePiles := fun _ => [],
             columns := [[c0], (c1 :: t1).reverse, (c2 :: t2).reverse,
               (c3 :: t3).reverse, (c4 :: t4).reverse, (c5 :: t5).reverse,
               (c6 :: t6).reverse],
             faceUp := flipAll (fun _ => false) [c0, c1, c2, c3, c4, c5, c6] } := by
  unfold resetGame
  rw [if_pos hdraw,
    dealFrom_spec7 A t1 t2 t3 t4 t5 t6 c0 c1 c2 c3 c4 c5 c6 _ h1 h2 h3 h4 h5 h6]

theorem exists_cons_of_length (l : List Card) (k : Nat) (h : l.length = k + 1) :
    ∃ c t, l = c :: t ∧ t.length = k := by
  cases l with
  | nil => simp at h
  | cons c t => exact ⟨c, t, rfl, by simpa using h⟩

theorem take_drop_glue (l : List Card) (n m k : Nat) (h : n + m = k) :
    (l.drop n).take m ++ l.drop k = l.drop n := by
  have hg := List.take_append_drop m (l.drop n)
  rw [List.drop_drop] at hg
  rw [h] at hg
  exact hg

/-- A 52-card deck splits as the 24 kept cards followed by the seven deal
chunks, the chunk for column 0 last. -/
theorem deck_split_52 (d : List Card) (hd : d.length = 52) :
    ∃ (A t1 t2 t3 t4 t5 t6 : List Card) (c0 c1 c2 c3 c4 c5 c6 : Card),
      d = A ++ c6 :: t6 ++ c5 :: t5 ++ c4 :: t4 ++ c3 :: t3 ++ c2 :: t2 ++
        c1 :: t1 ++ [c0] ∧
      A.length = 24 ∧ t1.length = 1 ∧ t2.length = 2 ∧ t3.length = 3 ∧
      t4.length = 4 ∧ t5.length = 5 ∧ t6.length = 6 := by
  obtain ⟨c0, hc0⟩ : ∃ c, d.drop 51 = [c] :=
    List.length_eq_one.mp (by rw [List.length_drop, hd])
  obtain ⟨c1, t1, hC1, hl1⟩ := exists_cons_of_length ((d.drop 49).take 2) 1
    (by simp [List.length_take, List.length_drop, hd])
  obtain ⟨c2, t2, hC2, hl2⟩ := exists_cons_of_length ((d.drop 46).take 3) 2
    (by simp [List.length_take, List.length_drop, hd])
  obtain ⟨c3, t3, hC3, hl3⟩ := exists_cons_of_length ((d.drop 42).take 4) 3
    (by simp [List.length_take, List.length_drop, hd])
  obtain ⟨c4, t4, hC4, hl4⟩ := exists_cons_of_length ((d.drop 37).take 5) 4
    (by simp [List.length_take, List.length_drop, hd])
  obtain ⟨c5, t5, hC5, hl5⟩ := exists_cons_of_length ((d.drop 31).take 6) 5
    (by simp [List.length_take, List.length_drop, hd])
  obtain ⟨c6, t6, hC6, hl6⟩ := exists_cons_of_length ((d.drop 24).take 7) 6
    (by simp [List.length_take, List.length_drop, hd])
  have g1 := take_drop_glue d 49 2 51 (by norm_num)
  have g2 := take_drop_glue d 46 3 49 (by norm_num)
  have g3 := take_drop_glue d 42 4 46 (by norm_num)
  have g4 := take_drop_glue d 37 5 42 (by norm_num)
  have g5 := take_drop_glue d 31 6 37 (by norm_num)
  have g6 := take_drop_glue d 24 7 31 (by norm_num)
  have g7 := List.take_append_drop 24 d
  have hglue : d.take 24 ++ ((d.drop 24).take 7 ++ ((d.drop 31).take 6 ++
      ((d.drop 37).take 5 ++ ((d.drop 42).take 4 ++ ((d.drop 46).take 3 ++
      ((d.drop 49).take 2 ++ d.drop 51)))))) = d := by
    rw [g1, g2, g3, g4, g5, g6, g7]
  refine ⟨d.take 24, t1, t2, t3, t4, t5, t6, c0, c1, c2, c3, c4, c5, c6, ?_,
    by simp [List.length_take, hd], hl1, hl2, hl3, hl4, hl5, hl6⟩
  rw [← hC1, ← hC2, ← hC3, ← hC4, ← hC5, ← hC6, ← hc0]
  simp only [List.append_assoc]
  exact hglue.symm

/-- Distinctness facts for the dealt deck: the seven flipped chunk heads
are pairwise distinct, and no kept-deck card or chunk-tail card equals
any of them. -/
theorem deal_nodup_facts (A t1 t2 t3 t4 t5 t6 : List Card)
    (c0 c1 c2 c3 c4 c5 c6 : Card)
    (hnd : (A ++ c6 :: t6 ++ c5 :: t5 ++ c4 :: t4 ++ c3 :: t3 ++ c2 :: t2 ++
      c1 :: t1 ++ [c0]).Nodup) :
    ([c0, c1, c2, c3, c4, c5, c6] : List Card).Nodup ∧
    (∀ x ∈ A, x ∉ ([c0, c1, c2, c3, c4, c5, c6] : List Card)) ∧
    (∀ x, (x ∈ t1 ∨ x ∈ t2 ∨ x ∈ t3 ∨ x ∈ t4 ∨ x ∈ t5 ∨ x ∈ t6) →
      x ∉ ([c0, c1, c2, c3, c4, c5, c6] : List Card)) := by
  simp only [List.nodup_append, List.nodup_cons, List.disjoint_cons_right,
    List.disjoint_append_right, List.mem_append, List.mem_cons, List.mem_singleton,
    List.disjoint_singleton, List.nodup_singleton, List.disjoint_cons_left] at hnd
  obtain ⟨⟨⟨⟨⟨⟨⟨hAnd, ⟨h6t, h6nd⟩, h6A, hAt6⟩, ⟨h5t, h5nd⟩, hc5, hD5⟩,
    ⟨h4t, h4nd⟩, hc4, hD4⟩, ⟨h3t, h3nd⟩, hc3, hD3⟩, ⟨h2t, h2nd⟩, hc2, hD2⟩,
    ⟨h1t, h1nd⟩, hc1, hD1⟩, hnil, hc0, hD0⟩ := hnd
  push_neg at hc5 hc4 hc3 hc2 hc1 hc0
  obtain ⟨hc5A, hc5c6, hc5t6⟩ := hc5
  obtain ⟨⟨hc4A, hc4c6, hc4t6⟩, hc4c5, hc4t5⟩ := hc4
  obtain ⟨⟨⟨hc3A, hc3c6, hc3t6⟩, hc3c5, hc3t5⟩, hc3c4, hc3t4⟩ := hc3
  obtain ⟨⟨⟨⟨hc2A, hc2c6, hc2t6⟩, hc2c5, hc2t5⟩, hc2c4, hc2t4⟩, hc2c3, hc2t3⟩ := hc2
  obtain ⟨⟨⟨⟨⟨hc1A, hc1c6, hc1t6⟩, hc1c5, hc1t5⟩, hc1c4, hc1t4⟩, hc1c3, hc1t3⟩,
    hc1c2, hc1t2⟩ := hc1
  obtain ⟨⟨⟨⟨⟨⟨hc0A, hc0c6, hc0t6⟩, hc0c5, hc0t5⟩, hc0c4, hc0t4⟩, hc0c3, hc0t3⟩,
    hc0c2, hc0t2⟩, hc0c1, hc0t1⟩ := hc0
  have hc2t1 : c2 ∉ t1 := hD1 (by simp)
  have hc3t1 : c3 ∉ t1 := hD1 (by simp)
  have hc4t1 : c4 ∉ t1 := hD1 (by simp)
  have hc5t1 : c5 ∉ t1 := hD1 (by simp)
  have hc6t1 : c6 ∉ t1 := hD1 (by simp)
  have hc3t2 : c3 ∉ t2 := hD2 (by simp)
  have hc4t2 : c4 ∉ t2 := hD2 (by simp)
  have hc5t2 : c5 ∉ t2 := hD2 (by simp)
  have hc6t2 : c6 ∉ t2 := hD2 (by simp)
  have hc4t3 : c4 ∉ t3 := hD3 (by simp)
  have hc5t3 : c5 ∉ t3 := hD3 (by simp)
  have hc6t3 : c6 ∉ t3 := hD3 (by simp)
  have hc5t4 : c5 ∉ t4 := hD4 (by simp)
  have hc6t4 : c6 ∉ t4 := hD4 (by simp)
  have hc6t5 : c6 ∉ t5 := hD5 (by simp)
  refine ⟨?_, ?_, ?_⟩
  · simp only [List.nodup_cons, List.mem_cons, List.not_mem_nil, or_false,
      List.nodup_nil, and_true]
    push_neg
    exact ⟨⟨hc0c1, hc0c2, hc0c3, hc0c4, hc0c5, hc0c6⟩,
      ⟨hc1c2, hc1c3, hc1c4, hc1c5, hc1c6⟩, ⟨hc2c3, hc2c4, hc2c5, hc2c6⟩,
      ⟨hc3c4, hc3c5, hc3c6⟩, ⟨hc4c5, hc4c6⟩, hc5c6, not_false⟩
  · intro x hx
    simp only [List.mem_cons, List.not_mem_nil, or_false]
    push_neg
    exact ⟨fun he => hc0A (by rw [← he]; exact hx),
      fun he => hc1A (by rw [← he]; exact hx),
      fun he => hc2A (by rw [← he]; exact hx),
      fun he => hc3A (by rw [← he]; exact hx),
      fun he => hc4A (by rw [← he]; exact hx),
      fun he => hc5A (by rw [← he]; exact hx),
      fun he => h6A (by rw [← he]; exact hx)⟩
  · rintro x (hx | hx | hx | hx | hx | hx) <;>
      simp only [List.mem_cons, List.not_mem_nil, or_false] <;> push_neg
    · exact ⟨fun he => hc0t1 (by rw [← he]; exact hx),
        fun he => h1t (by rw [← he]; exact hx),
        fun he => hc2t1 (by rw [← he]; exact hx),
        fun he => hc3t1 (by rw [← he]; exact hx),
        fun he => hc4t1 (by rw [← he]; exact hx),
        fun he => hc5t1 (by rw [← he]; exact hx),
        fun he => hc6t1 (by rw [← he]; exact hx)⟩
    · exact ⟨fun he => hc0t2 (by rw [← he]; exact hx),
        fun he => hc1t2 (by rw [← he]; exact hx),
        fun he => h2t (by rw [← he]; exact hx),
        fun he => hc3t2 (by rw [← he]; exact hx),
        fun he => hc4t2 (by rw [← he]; exact hx),
        fun he => hc5t2 (by rw [← he]; exact hx),
        fun he => hc6t2 (by rw [← he]; exact hx)⟩
    · exact ⟨fun he => hc0t3 (by rw [← he]; exact hx),
        fun he => hc1t3 (by rw [← he]; exact hx),
        fun he => hc2t3 (by rw [← he]; exact hx),
        fun he => h3t (by rw [← he]; exact hx),
        fun he => hc4t3 (by rw [← he]; exact hx),
        fun he => hc5t3 (by rw [← he]; exact hx),
        fun he => hc6t3 (by rw [← he]; exact hx)⟩
    · exact ⟨fun he => hc0t4 (by rw [← he]; exact hx),
        fun he => hc1t4 (by rw [← he]; exact hx),
        fun he => hc2t4 (by rw [← he]; exact hx),
        fun he => hc3t4 (by rw [← he]; exact hx),
        fun he => h4t (by rw [← he]; exact hx),
        fun he => hc5t4 (by rw [← he]; exact hx),
        fun he => hc6t4 (by rw [← he]; exact hx)⟩
    · exact ⟨fun he => hc0t5 (by rw [← he]; exact hx),
        fun he => hc1t5 (by rw [← he]; exact hx),
        fun he => hc2t5 (by rw [← he]; exact hx),
        fun he => hc3t5 (by rw [← he]; exact hx),
        fun he => hc4t5 (by rw [← he]; exact hx),
        fun he => h5t (by rw [← he]; exact hx),
        fun he => hc6t5 (by rw [← he]; exact hx)⟩
    · exact ⟨fun he => hc0t6 (by rw [← he]; exact hx),
        fun he => hc1t6 (by rw [← he]; exact hx),
        fun he => hc2t6 (by rw [← he]; exact hx),
        fun he => hc3t6 (by rw [← he]; exact hx),
        fun he => hc4t6 (by rw [← he]; exact hx),
        fun he => hc5t6 (by rw [← he]; exact hx),
        fun he => h6t (by rw [← he]; exact hx)⟩

/-- reset_game establishes the invariant, for any shuffled permutation of
the full deck. -/
theorem resetGame_inv (draw : Nat) (d : List Card) (s0 : GameState)
    (hperm : d.Perm fullDeck) (h : resetGame draw d = some s0) : EngineInv s0 := by
  have hM0 := resetGame_multiset draw d s0 h
  have hMful : cardMultiset s0 = (fullDeck : Multiset Card) := by
    rw [hM0.1]
    exact Multiset.coe_eq_coe.mpr hperm
  have hlen : d.length = 52 := by
    rw [hperm.length_eq]
    rfl
  have hnd : d.Nodup := hperm.nodup_iff.mpr (by decide)
  obtain ⟨A, t1, t2, t3, t4, t5, t6, c0, c1, c2, c3, c4, c5, c6, hdec, hA,
    h1, h2, h3, h4, h5, h6⟩ := deck_split_52 d hlen
  have hdraw : draw = 1 ∨ draw = 3 := by
    by_contra hcon
    unfold resetGame at h
    rw [if_neg hcon] at h
    cases h
  have hspec := resetGame_spec draw hdraw A t1 t2 t3 t4 t5 t6 c0 c1 c2 c3 c4 c5 c6
    h1 h2 h3 h4 h5 h6
  rw [hdec, hspec] at h
  have hs0 := (Option.some.inj h).symm
  obtain ⟨hndtops, hAfacts, htfacts⟩ := deal_nodup_facts A t1 t2 t3 t4 t5 t6
    c0 c1 c2 c3 c4 c5 c6 (by rw [← hdec]; exact hnd)
  refine ⟨hMful, hM0.2, ?_, ?_, ?_⟩
  · intro c hc
    rw [hs0] at hc ⊢
    dsimp only at hc ⊢
    rw [flipAll_not_mem _ _ _ (hAfacts c hc)]
  · intro c hc
    rw [hs0] at hc
    simp at hc
  · intro col hcol t ht
    rw [hs0] at hcol ⊢
    dsimp only at hcol ⊢
    have htopmem : ∀ cc : Card, cc ∈ ([c0, c1, c2, c3, c4, c5, c6] : List Card) →
        flipAll (fun _ => false) [c0, c1, c2, c3, c4, c5, c6] cc = true := by
      intro cc hcc
      rw [flipAll_mem _ _ _ hndtops hcc]
      rfl
    simp only [List.mem_cons, List.not_mem_nil, or_false] at hcol
    rcases hcol with hc | hc | hc | hc | hc | hc | hc <;> rw [hc] at ht
    · cases ht
      exact htopmem c0 (by simp)
    · rw [List.getLast?_reverse] at ht
      cases ht
      exact htopmem c1 (by simp)
    · rw [List.getLast?_reverse] at ht
      cases ht
      exact htopmem c2 (by simp)
    · rw [List.getLast?_reverse] at ht
      cases ht
      exact htopmem c3 (by simp)
    · rw [List.getLast?_reverse] at ht
      cases ht
      exact htopmem c4 (by simp)
    · rw [List.getLast?_reverse] at ht
      cases ht
      exact htopmem c5 (by simp)
    · rw [List.getLast?_reverse] at ht
      cases ht
      exact htopmem c6 (by simp)

-- ----- orientation retention: flips only reveal -----

/-- take_cards never turns a card face down: the orientation map it
returns agrees with the old one except possibly one card flipped from
face down to face up. -/
theorem columnTakeCards_monotone (col : List Card) (f : Card → Bool) (n : Nat)
    (a b : List Card) (g : Card → Bool)
    (h : columnTakeCards col f n = .ok (a, b, g)) :
    ∀ x, g x = f x ∨ (f x = false ∧ g x = true) := by
  unfold columnTakeCards at h
  split at h
  · cases h
  · dsimp only at h
    split at h
    next t ht =>
      split at h
      next hf =>
        simp only [Except.ok.injEq, Prod.mk.injEq] at h
        intro x
        rw [← h.2.2]
        by_cases hx : x = t
        · subst hx
          simp only [Bool.not_eq_true'] at hf
          right
          refine ⟨hf, ?_⟩
          rw [flipCard_self, hf]
          rfl
        · left
          exact flipCard_ne _ _ _ hx
      next hf =>
        simp only [Except.ok.injEq, Prod.mk.injEq] at h
        intro x
        left
        rw [← h.2.2]
    next ht =>
      simp only [Except.ok.injEq, Prod.mk.injEq] at h
      intro x
      left
      rw [← h.2.2]

/-- take_card never turns a card face down. -/
theorem columnTakeCard_monotone (col : List Card) (f : Card → Bool)
    (c : Card) (b : List Card) (g : Card → Bool)
    (h : columnTakeCard col f = .ok (c, b, g)) :
    ∀ x, g x = f x ∨ (f x = false ∧ g x = true) := by
  unfold columnTakeCard at h
  split at h
  · cases h
  next c2 hg =>
    dsimp only at h
    split at h
    next t ht =>
      split at h
      next hf =>
        simp only [Except.ok.injEq, Prod.mk.injEq] at h
        intro x
        rw [← h.2.2]
        by_cases hx : x = t
        · subst hx
          simp only [Bool.not_eq_true'] at hf
          right
          refine ⟨hf, ?_⟩
          rw [flipCard_self, hf]
          rfl
        · left
          exact flipCard_ne _ _ _ hx
      next hf =>
        simp only [Except.ok.injEq, Prod.mk.injEq] at h
        intro x
        left
        rw [← h.2.2]
    next ht =>
      simp only [Except.ok.injEq, Prod.mk.injEq] at h
      intro x
      left
      rw [← h.2.2]

/-- Two successive only-reveal changes compose to an only-reveal
change. -/
theorem flip_mono_trans (f g k : Card → Bool)
    (h1 : ∀ x, g x = f x ∨ (f x = false ∧ g x = true))
    (h2 : ∀ x, k x = g x ∨ (g x = false ∧ k x = true)) :
    ∀ x, k x = f x ∨ (f x = false ∧ k x = true) := by
  intro x
  rcases h1 x with e1 | e1 <;> rcases h2 x with e2 | e2
  · left
    rw [e2, e1]
  · right
    rw [e1] at e2
    exact e2
  · right
    rw [e2, e1.2]
    exact ⟨e1.1, rfl⟩
  · exfalso
    rw [e1.2] at e2
    simp at e2

/-- discard_to_column never touches any orientation. -/
theorem discardToColumn_faceUp_eq (s : GameState) (i : Fin 7) :
    (discardToColumn s i).1.faceUp = s.faceUp := by
  unfold discardToColumn
  cases hg : s.discard.getLast? with
  | none => rfl
  | some card =>
    dsimp only
    by_cases hca : canAddCol (s.columns.getD i []) card
    · rw [if_pos hca]
    · rw [if_neg hca]

/-- discard_to_ace_pile never touches any orientation. -/
theorem discardToAcePile_faceUp_eq (s : GameState) :
    (discardToAcePile s).1.faceUp = s.faceUp := by
  unfold discardToAcePile
  cases hg : s.discard.getLast? with
  | none => rfl
  | some card =>
    dsimp only
    by_cases hca : canAddAce (s.acePiles card.suit) card
    · rw [if_pos hca]
    · rw [if_neg hca]

/-- One engine call never turns a card that lies in a column face down:
the card keeps its orientation unless the call reveals it (flips it from
face down to face up). -/
theorem step_column_orient (s : GameState) (op : Op) (h : EngineInv s) :
    ∀ c : Card, (∃ col ∈ s.columns, c ∈ col) →
      (step s op).1.faceUp c = s.faceUp c ∨
      (s.faceUp c = false ∧ (step s op).1.faceUp c = true) := by
  obtain ⟨hM, h7, hdk, hdc, htop⟩ := h
  obtain ⟨hdnd, hdcnd, hcoldis, hddis⟩ := inv_disjoint s hM
  intro c hc
  have hcdk : c ∉ s.deck := (hcoldis c hc).1
  have hcdc : c ∉ s.discard := (hcoldis c hc).2
  cases op with
  | drawFromPile =>
    left
    show (drawFromPile s).faceUp c = s.faceUp c
    by_cases hd : s.deck = []
    · rw [drawFromPile, if_pos hd]
      exact flipAll_not_mem _ _ _ hcdc
    · obtain ⟨U, D, hsplit, hchar⟩ := drawFromPile_char s hd
      rw [hchar]
      exact flipAll_not_mem _ _ _ (fun hcu => hcdk
        (by rw [hsplit]; exact List.mem_append_right _ (List.mem_reverse.mpr hcu)))
  | discardToColumn i =>
    left
    show (discardToColumn s i).1.faceUp c = s.faceUp c
    rw [discardToColumn_faceUp_eq]
  | discardToAcePile =>
    left
    show (discardToAcePile s).1.faceUp c = s.faceUp c
    rw [discardToAcePile_faceUp_eq]
  | columnToColumn src dst n =>
    show (columnToColumn s src dst n).1.faceUp c = s.faceUp c ∨
      (s.faceUp c = false ∧ (columnToColumn s src dst n).1.faceUp c = true)
    unfold columnToColumn
    dsimp only
    cases htc : columnTakeCards (s.columns.getD src []) s.faceUp n with
    | error e =>
      simp only [htc]
      left
      trivial
    | ok res =>
      obtain ⟨cards, rest, f2⟩ := res
      have hmono := columnTakeCards_monotone _ _ _ _ _ _ htc
      simp only [htc]
      cases cards with
      | nil =>
        simp only [columnAddCards]
        exact hmono c
      | cons c0 cs2 =>
        by_cases hca : canAddCol ((s.columns.set src rest).getD dst []) c0
        · simp only [columnAddCards, if_pos hca]
          split
          next t ht =>
            split
            next hcond =>
              have hft : f2 t = false := by
                simpa using hcond
              have hstepm : ∀ x, flipCard f2 t x = f2 x ∨
                  (f2 x = false ∧ flipCard f2 t x = true) := by
                intro x
                by_cases hx : x = t
                · subst hx
                  right
                  refine ⟨hft, ?_⟩
                  rw [flipCard_self, hft]
                  rfl
                · left
                  exact flipCard_ne _ _ _ hx
              exact flip_mono_trans _ _ _ hmono hstepm c
            next => exact hmono c
          next => exact hmono c
        · simp only [columnAddCards, if_neg hca]
          exact hmono c
  | columnToAcePile i =>
    show (columnToAcePile s i).1.faceUp c = s.faceUp c ∨
      (s.faceUp c = false ∧ (columnToAcePile s i).1.faceUp c = true)
    unfold columnToAcePile
    dsimp only
    cases htc : columnTakeCard (s.columns.getD i []) s.faceUp with
    | error e =>
      simp only [htc]
      left
      trivial
    | ok res =>
      obtain ⟨card, rest, f2⟩ := res
      have hmono := columnTakeCard_monotone _ _ _ _ _ htc
      simp only [htc]
      by_cases hca : canAddAce (s.acePiles card.suit) card
      · rw [if_pos hca]
        split
        next t ht =>
          split
          next hcond =>
            have hft : f2 t = false := by
              simpa using hcond
            have hstepm : ∀ x, flipCard f2 t x = f2 x ∨
                (f2 x = false ∧ flipCard f2 t x = true) := by
              intro x
              by_cases hx : x = t
              · subst hx
                right
                refine ⟨hft, ?_⟩
                rw [flipCard_self, hft]
                rfl
              · left
                exact flipCard_ne _ _ _ hx
            exact flip_mono_trans _ _ _ hmono hstepm c
          next => exact hmono c
        next => exact hmono c
      · rw [if_neg hca]
        exact hmono c

-- ----- C7 (amended) -----

/-- C7 amended: after setup and after any sequence of engine calls, the
top card (if present) of every column is face up; and every card lying in
a column retains its face orientation across any further engine call
unless that call reveals it, flipping it from face down to face up — no
call ever turns a column card face down.  (The full
descending-rank/alternating-color claim is refuted by
c7_dealt_column_same_color: the deal stacks arbitrary shuffled cards.) -/
theorem c7_top_always_face_up (s : GameState) (h : Reachable s) :
    (∀ col ∈ s.columns, ∀ t, col.getLast? = some t → s.faceUp t = true) ∧
    (∀ (op : Op) (c : Card), (∃ col ∈ s.columns, c ∈ col) →
      (step s op).1.faceUp c = s.faceUp c ∨
      (s.faceUp c = false ∧ (step s op).1.faceUp c = true)) := by
  obtain ⟨draw, d, s0, ops, hdr, hperm, hreset, hrun⟩ := h
  have hinv := run_inv ops s0 (resetGame_inv draw d s0 hperm hreset)
  rw [hrun]
  exact ⟨hinv.2.2.2.2, fun op c hc => step_column_orient _ op hinv c hc⟩

/-- Witness for c7_top_always_face_up: in the game dealt from the full
deck, the single card of column 0 (the king of spades) is face up. -/
theorem c7_top_always_face_up_witness : s0full.faceUp (Card.mk 13 Suit.spades) = true :=
  (c7_top_always_face_up s0full
    ⟨1, fullDeck, s0full, [], Or.inl rfl, List.Perm.refl _,
      isSome_eq_some_getD _ _ (by decide), rfl⟩).1
    (s0full.columns.getD 0 []) (by decide) (Card.mk 13 Suit.spades) (by decide)

-- ----- C8 -----

/-- C8: for any shuffled permutation of the 52-card deck, resetGame(1)
succeeds and deals column i exactly i+1 cards, the deck keeping 24; in
every column only the last (top) card is face up: the top is face up and
every card strictly below it is face down. -/
theorem c8_deal_shape (d : List Card) (hperm : d.Perm fullDeck) :
    ∃ s0, resetGame 1 d = some s0 ∧ s0.deck.length = 24 ∧
      s0.columns.length = 7 ∧
      ∀ i, i < 7 → (s0.columns.getD i []).length = i + 1 ∧
        (∀ t, (s0.columns.getD i []).getLast? = some t → s0.faceUp t = true) ∧
        (∀ j, j + 1 < (s0.columns.getD i []).length →
          s0.faceUp ((s0.columns.getD i []).getD j (Card.mk 1 Suit.clubs)) = false) := by
  have hlen : d.length = 52 := by
    rw [hperm.length_eq]
    rfl
  have hnd : d.Nodup := hperm.nodup_iff.mpr (by decide)
  obtain ⟨A, t1, t2, t3, t4, t5, t6, c0, c1, c2, c3, c4, c5, c6, hdec, hA,
    h1, h2, h3, h4, h5, h6⟩ := deck_split_52 d hlen
  have hspec := resetGame_spec 1 (Or.inl rfl) A t1 t2 t3 t4 t5 t6 c0 c1 c2 c3 c4 c5 c6
    h1 h2 h3 h4 h5 h6
  rw [← hdec] at hspec
  refine ⟨_, hspec, hA, rfl, ?_⟩
  have hinv := resetGame_inv 1 d _ hperm hspec
  obtain ⟨hndtops, hAfacts, htfacts⟩ := deal_nodup_facts A t1 t2 t3 t4 t5 t6
    c0 c1 c2 c3 c4 c5 c6 (by rw [← hdec]; exact hnd)
  intro i hi
  refine ⟨?_, ?_, ?_⟩
  · interval_cases i <;> simp [h1, h2, h3, h4, h5, h6]
  · intro t ht
    exact hinv.2.2.2.2 _ (getD_mem _ _ _ (by rw [hinv.2.1]; exact hi)) t ht
  · intro j hj
    have hdown : ∀ x, (x ∈ t1 ∨ x ∈ t2 ∨ x ∈ t3 ∨ x ∈ t4 ∨ x ∈ t5 ∨ x ∈ t6) →
        flipAll (fun _ => false) [c0, c1, c2, c3, c4, c5, c6] x = false := by
      intro x hx
      rw [flipAll_not_mem _ _ _ (htfacts x hx)]
    interval_cases i
    · simp only [List.getD_cons_zero, List.length_singleton] at hj
      omega
    · simp only [List.getD_cons_succ, List.getD_cons_zero] at hj ⊢
      rw [List.length_reverse, List.length_cons, h1] at hj
      rw [List.reverse_cons, List.getD_append _ _ _ _ (by rw [List.length_reverse, h1]; omega)]
      refine hdown _ (Or.inl ?_)
      have hm := getD_mem t1.reverse (Card.mk 1 Suit.clubs) j (by rw [List.length_reverse, h1]; omega)
      rw [List.mem_reverse] at hm
      exact hm
    · simp only [List.getD_cons_succ, List.getD_cons_zero] at hj ⊢
      rw [List.length_reverse, List.length_cons, h2] at hj
      rw [List.reverse_cons, List.getD_append _ _ _ _ (by rw [List.length_reverse, h2]; omega)]
      refine hdown _ (Or.inr (Or.inl ?_))
      have hm := getD_mem t2.reverse (Card.mk 1 Suit.clubs) j (by rw [List.length_reverse, h2]; omega)
      rw [List.mem_reverse] at hm
      exact hm
    · simp only [List.getD_cons_succ, List.getD_cons_zero] at hj ⊢
      rw [List.length_reverse, List.length_cons, h3] at hj
      rw [List.reverse_cons, List.getD_append _ _ _ _ (by rw [List.length_reverse, h3]; omega)]
      refine hdown _ (Or.inr (Or.inr (Or.inl ?_)))
      have hm := getD_mem t3.reverse (Card.mk 1 Suit.clubs) j (by rw [List.length_reverse, h3]; omega)
      rw [List.mem_reverse] at hm
      exact hm
    · simp only [List.getD_cons_succ, List.getD_cons_zero] at hj ⊢
      rw [List.length_reverse, List.length_cons, h4] at hj
      rw [List.reverse_cons, List.getD_append _ _ _ _ (by rw [List.length_reverse, h4]; omega)]
      refine hdown _ (Or.inr (Or.inr (Or.inr (Or.inl ?_))))
      have hm := getD_mem t4.reverse (Card.mk 1 Suit.clubs) j (by rw [List.length_reverse, h4]; omega)
      rw [List.mem_reverse] at hm
      exact hm
    · simp only [List.getD_cons_succ, List.getD_cons_zero] at hj ⊢
      rw [List.length_reverse, List.length_cons, h5] at hj
      rw [List.reverse_cons, List.getD_append _ _ _ _ (by rw [List.length_reverse, h5]; omega)]
      refine hdown _ (Or.inr (Or.inr (Or.inr (Or.inr (Or.inl ?_)))))
      have hm := getD_mem t5.reverse (Card.mk 1 Suit.clubs) j (by rw [List.length_reverse, h5]; omega)
      rw [List.mem_reverse] at hm
      exact hm
    · simp only [List.getD_cons_succ, List.getD_cons_zero] at hj ⊢
      rw [List.length_reverse, List.length_cons, h6] at hj
      rw [List.reverse_cons, List.getD_append _ _ _ _ (by rw [List.length_reverse, h6]; omega)]
      refine hdown _ (Or.inr (Or.inr (Or.inr (Or.inr (Or.inr ?_)))))
      have hm := getD_mem t6.reverse (Card.mk 1 Suit.clubs) j (by rw [List.length_reverse, h6]; omega)
      rw [List.mem_reverse] at hm
      exact hm

/-- Witness for c8_deal_shape at the unshuffled full deck. -/
theorem c8_deal_shape_witness :
    ∃ s0, resetGame 1 fullDeck = some s0 ∧ s0.deck.length = 24 ∧
      s0.columns.length = 7 ∧
      ∀ i, i < 7 → (s0.columns.getD i []).length = i + 1 ∧
        (∀ t, (s0.columns.getD i []).getLast? = some t → s0.faceUp t = true) ∧
        (∀ j, j + 1 < (s0.columns.getD i []).length →
          s0.faceUp ((s0.columns.getD i []).getD j (Card.mk 1 Suit.clubs)) = false) :=
  c8_deal_shape fullDeck (List.Perm.refl _)
